import Mathlib

/-!
# bsky-orbit: follow recommendations from a two-hop neighbourhood

A shallow embedding of `src/main.go` and the properties of its aggregation,
ranking, pagination, enrichment and truncation steps.

Conventions of the embedding

* A Go `string` is a sequence of bytes (`GoString`); `len` is the byte length and
  `s[:n]` is a byte slice.
* A Go `map[K]V` is a finite association list (`GoMap`) whose keys the map operations
  keep pairwise distinct; reading a missing key gives the zero value of `V`.  The order in which
  `range` visits a map is unspecified, so every loop over a map takes the visiting
  order as an input that is a permutation of the entries.
* `sort.Slice` is not stable; it is an input `srt` constrained by `SortSliceSpec`
  (its result is a permutation of its argument, ordered by the comparison).
  `insertionSortLessFunc`, the algorithm the Go library runs on short slices, is
  provided as an executable instance.
* The network is an oracle indexed by the number of API calls made so far; that
  counter is passed explicitly through every function that calls `apiGet`.
* Go `int` values that only count list elements are natural numbers (a count of
  elements held in memory cannot overflow a 64-bit `int`); values decoded from JSON
  and the `max` argument of `truncate` are integers.
* Printing and the pacing delays (`time.Sleep`) are left out: they change no value the
  program computes.
-/

namespace BskyOrbit

/-! ## Strings -/

/-- One byte of a Go string. -/
abbrev Byte := Fin 256

/-- A Go `string`: an immutable sequence of bytes. -/
abbrev GoString := List Byte

/-- The bytes of an ASCII literal. -/
def ascii (s : String) : GoString := s.toList.map (fun c => Fin.ofNat c.toNat)

/-! ## Data model (`src/main.go`, lines 17-51) -/

/-- The Go type `Profile`. -/
structure Profile where
  DID : GoString
  Handle : GoString
  DisplayName : GoString
  Description : GoString
  FollowersCount : Int
  FollowsCount : Int
deriving DecidableEq, Repr

/-- The Go type `Follow`. -/
structure Follow where
  DID : GoString
  Handle : GoString
  DisplayName : GoString
  Description : GoString
deriving DecidableEq, Repr

/-- The Go type `FollowsResponse`. -/
structure FollowsResponse where
  Follows : List Follow
  Cursor : GoString
deriving DecidableEq, Repr

/-- The Go type `Recommendation`. -/
structure Recommendation where
  Rank : Nat
  Handle : GoString
  DisplayName : GoString
  Bio : GoString
  FollowersCount : Int
  FollowedBy : Nat
  URL : GoString
deriving DecidableEq, Repr

/-- The zero value of `Follow` (what `info[did]` yields for a missing key). -/
def Follow.zero : Follow := ⟨[], [], [], []⟩

/-! ## Go maps -/

/-- Writes `k ↦ v` into a list of entries: overwrites the entry of `k` when there is
one, adds a new entry otherwise. -/
def setEntry {κ ν : Type} [DecidableEq κ] (k : κ) (v : ν) : List (κ × ν) → List (κ × ν)
  | [] => [(k, v)]
  | e :: rest => if e.1 = k then (k, v) :: rest else e :: setEntry k v rest

/-- Reads the entry of `k` from a list of entries. -/
def findEntry {κ ν : Type} [DecidableEq κ] (k : κ) : List (κ × ν) → Option ν
  | [] => none
  | e :: rest => if e.1 = k then some e.2 else findEntry k rest

/-- A Go `map[κ]ν`. -/
structure GoMap (κ ν : Type) where
  entries : List (κ × ν)
deriving DecidableEq, Repr

namespace GoMap

variable {κ ν : Type} [DecidableEq κ]

/-- The result of `make(map[κ]ν)`. -/
def empty : GoMap κ ν := ⟨[]⟩

/-- The statement `m[k] = v`. -/
def set (m : GoMap κ ν) (k : κ) (v : ν) : GoMap κ ν := ⟨setEntry k v m.entries⟩

/-- The two-valued read `v, ok := m[k]`. -/
def find? (m : GoMap κ ν) (k : κ) : Option ν := findEntry k m.entries

/-- The one-valued read `m[k]`, with `zero` the zero value of the value type. -/
def getD (m : GoMap κ ν) (k : κ) (zero : ν) : ν := (m.find? k).getD zero

/-- The keys of the map. -/
def keys (m : GoMap κ ν) : List κ := m.entries.map Prod.fst

end GoMap

/-! ## Aggregation (`main`, lines 174-199) -/

/-- The loop of lines 174-177: `followedDIDs[f.DID] = true` for every first-hop
follow. -/
def followedDIDs (myFollows : List Follow) : GoMap GoString Bool :=
  myFollows.foldl (fun m f => m.set f.DID true) GoMap.empty

/-- The two maps `counts` and `info` filled by the aggregation loop. -/
structure AggState where
  counts : GoMap GoString Nat
  info : GoMap GoString Follow
deriving DecidableEq, Repr

/-- The state of lines 182-183: two empty maps. -/
def AggState.init : AggState := ⟨GoMap.empty, GoMap.empty⟩

/-- The body of the inner loop, lines 190-196, for one edge `f`. -/
def aggStep (myDID : GoString) (followed : GoMap GoString Bool) (st : AggState)
    (f : Follow) : AggState :=
  if f.DID = myDID || followed.getD f.DID false then st
  else
    { counts := st.counts.set f.DID (st.counts.getD f.DID 0 + 1)
      info := if (st.info.find? f.DID).isSome then st.info else st.info.set f.DID f }

/-- The outer loop, lines 185-199, over the first-hop accounts.  Each element of
`hops` pairs a first-hop account with the list `getAllFollows` returned for it. -/
def aggLoop (myDID : GoString) (followed : GoMap GoString Bool) :
    List (Follow × List Follow) → AggState → AggState
  | [], st => st
  | hop :: rest, st => aggLoop myDID followed rest (hop.2.foldl (aggStep myDID followed) st)

/-- Lines 174-199: the exclusion map is built from the first-hop list, then the
second-hop lists are aggregated. -/
def aggregate (myDID : GoString) (hops : List (Follow × List Follow)) : AggState :=
  aggLoop myDID (followedDIDs (hops.map Prod.fst)) hops AggState.init

/-! ## Ranking (`main`, lines 203-219) -/

/-- The local type `kv` of `main`. -/
structure KV where
  DID : GoString
  Count : Nat
deriving DecidableEq, Repr

/-- Lines 207-210: one `kv` per map entry, appended in the order `range` visits the
entries, which is the order of `visit`. -/
def collect (visit : List (GoString × Nat)) : List KV :=
  visit.map (fun e => KV.mk e.1 e.2)

/-- The comparison of lines 211-213: `sorted[i].Count > sorted[j].Count`. -/
def byCountDesc (a b : KV) : Bool := decide (a.Count > b.Count)

/-- The slice expression `s[:n]` for a slice without spare capacity: it panics when `n`
exceeds the length; a panic is `none`. -/
def sliceTo {α : Type} (s : List α) (n : Nat) : Option (List α) :=
  if n ≤ s.length then some (s.take n) else none

/-- Lines 211-219: sort with the comparison, then keep the first `limit` elements,
where `limit` is 30 or the length when that is smaller. -/
def rankTop (srt : (KV → KV → Bool) → List KV → List KV) (cands : List KV) :
    Option (List KV) :=
  let sorted := srt byCountDesc cands
  let limit := if sorted.length < 30 then sorted.length else 30
  sliceTo sorted limit

/-- The contract of the library function `sort.Slice` at the comparison of `main`: the
result is a rearrangement of the argument in which no element is preceded by one that
the comparison places after it.  Stability is not part of the contract. -/
structure SortSliceSpec (srt : (KV → KV → Bool) → List KV → List KV) : Prop where
  perm : ∀ xs, (srt byCountDesc xs).Perm xs
  sorted : ∀ xs, (srt byCountDesc xs).Pairwise (fun a b => byCountDesc b a = false)

/-- The inner loop of the Go library's `insertionSortLessFunc`: the new element `x` is
swapped towards the front while it is less than its predecessor.  The already sorted
part is given last element first. -/
def insertBack {α : Type} (less : α → α → Bool) (x : α) : List α → List α
  | [] => [x]
  | y :: ys => if less x y then y :: insertBack less x ys else x :: y :: ys

/-- The Go library's `insertionSortLessFunc`, the algorithm `sort.Slice` runs on short
slices (of at most twelve elements in the current library, and alone on fewer than
seven elements in every version). -/
def insertionSortLessFunc {α : Type} (less : α → α → Bool) (xs : List α) : List α :=
  (xs.foldl (fun sortedRev x => insertBack less x sortedRev) []).reverse

/-! ## Network (`apiGet`, `getProfile`, `getAllFollows`, lines 55-115) -/

/-- The environment of the program: the remote API and the JSON decoder.  `apiGet n
endpoint params` is the outcome of `apiGet(endpoint, params)` when it is the `n`-th API
call of the run (an error, or the response body). -/
structure Env where
  apiGet : Nat → GoString → GoMap GoString GoString → Except GoString GoString
  unmarshalProfile : GoString → Except GoString Profile
  unmarshalFollows : GoString → Except GoString FollowsResponse

/-- The function `getProfile`, lines 75-85, as the `n`-th API call. -/
def getProfile (env : Env) (n : Nat) (handle : GoString) : Except GoString Profile :=
  match env.apiGet n (ascii "app.bsky.actor.getProfile")
      (GoMap.empty.set (ascii "actor") handle) with
  | .error e => .error e
  | .ok data => env.unmarshalProfile data

/-- One iteration of the loop of `getAllFollows` up to the decoding, lines 92-105: the
page requested with `cursor` as the `n`-th API call, or `none` when the fetch or the
decoding fails. -/
def fetchPage (env : Env) (handle : GoString) (n : Nat) (cursor : GoString) :
    Option FollowsResponse :=
  let params := (GoMap.empty.set (ascii "actor") handle).set (ascii "limit") (ascii "100")
  let params := if cursor ≠ [] then params.set (ascii "cursor") cursor else params
  match env.apiGet n (ascii "app.bsky.graph.getFollows") params with
  | .error _ => none
  | .ok data =>
    match env.unmarshalFollows data with
    | .error _ => none
    | .ok resp => some resp

/-- The loop of `getAllFollows`, lines 91-112, with `fuel` bounding the number of
iterations; `none` when the fuel runs out.  Returns the collected edges and the API
call counter after the loop. -/
def getAllFollowsLoop (env : Env) (handle : GoString) :
    Nat → Nat → GoString → List Follow → Option (List Follow × Nat)
  | 0, _, _, _ => none
  | fuel + 1, n, cursor, follows =>
    match fetchPage env handle n cursor with
    | none => some (follows, n + 1)
    | some resp =>
      let follows := follows ++ resp.Follows
      let cursor := resp.Cursor
      if cursor = [] then some (follows, n + 1)
      else getAllFollowsLoop env handle fuel (n + 1) cursor follows

/-- The function `getAllFollows`, lines 87-115, starting at API call `n`: the edges,
the returned `error` (`none` is Go's `nil`) and the call counter afterwards. -/
def getAllFollows (env : Env) (fuel : Nat) (handle : GoString) (n : Nat) :
    Option ((List Follow × Option GoString) × Nat) :=
  (getAllFollowsLoop env handle fuel n [] []).map (fun r => ((r.1, none), r.2))

/-! ## Truncation (`truncate`, lines 128-135) -/

/-- The library call `strings.ReplaceAll(s, old, new)` for one-byte `old` and `new`. -/
def replaceAllByte (old new : Byte) (s : GoString) : GoString :=
  s.map (fun b => if b = old then new else b)

/-- The UTF-8 encodings of the code points for which `unicode.IsSpace` holds: tab, line
feed, vertical tab, form feed, carriage return, space, U+0085, U+00A0, U+1680,
U+2000 to U+200A, U+2028, U+2029, U+202F, U+205F and U+3000. -/
def spaceRunes : List GoString :=
  [[0x09], [0x0A], [0x0B], [0x0C], [0x0D], [0x20], [0xC2, 0x85], [0xC2, 0xA0],
   [0xE1, 0x9A, 0x80],
   [0xE2, 0x80, 0x80], [0xE2, 0x80, 0x81], [0xE2, 0x80, 0x82], [0xE2, 0x80, 0x83],
   [0xE2, 0x80, 0x84], [0xE2, 0x80, 0x85], [0xE2, 0x80, 0x86], [0xE2, 0x80, 0x87],
   [0xE2, 0x80, 0x88], [0xE2, 0x80, 0x89], [0xE2, 0x80, 0x8A],
   [0xE2, 0x80, 0xA8], [0xE2, 0x80, 0xA9], [0xE2, 0x80, 0xAF], [0xE2, 0x81, 0x9F],
   [0xE3, 0x80, 0x80]]

/-- The number of bytes of the white-space rune `s` starts with, 0 when `s` does not
start with one.  `pats` is the list of encodings to look for. -/
def spaceWidth (pats : List GoString) (s : GoString) : Nat :=
  match pats.find? (fun p => (s.take p.length == p)) with
  | some p => p.length
  | none => 0

/-- Drops white-space runes from the front of `s` until the first byte that does not
start one; `fuel` bounds the number of runes dropped. -/
def dropSpaces (pats : List GoString) : Nat → GoString → GoString
  | 0, s => s
  | fuel + 1, s =>
    if spaceWidth pats s = 0 then s else dropSpaces pats fuel (s.drop (spaceWidth pats s))

/-- The library call `strings.TrimSpace(s)`: `s` without its leading and trailing
white-space runes.  The library decodes one rune at a time, from the front and then from
the back; a white-space rune is decoded exactly where one of the encodings of
`spaceRunes` stands, and a byte that starts no valid encoding decodes to U+FFFD, which
is not white space and ends the trimming.  The trailing runes are dropped from the
reversed string, looking for the reversed encodings. -/
def trimSpace (s : GoString) : GoString :=
  let l := dropSpaces spaceRunes s.length s
  (dropSpaces (spaceRunes.map List.reverse) l.length l.reverse).reverse

/-- The function `truncate`, lines 128-135.  The slice expression `s[:max-3]` panics
when `max-3` is negative or exceeds the length; a panic is `none`. -/
def truncate (s : GoString) (max : Int) : Option GoString :=
  let s := replaceAllByte 0x0A 0x20 s
  let s := trimSpace s
  if (s.length : Int) > max then
    if 0 ≤ max - 3 ∧ max - 3 ≤ (s.length : Int) then
      some (s.take (max - 3).toNat ++ ascii "...")
    else none
  else some s

/-! ## Enrichment (`main`, lines 223-243) -/

/-- The loop of lines 224-243 from position `i` (0-based) on, the first profile request
being API call `n`.  Every iteration makes exactly one API call.  `none` when
`truncate` panics. -/
def enrichFrom (env : Env) (info : GoMap GoString Follow) :
    Nat → Nat → List KV → Option (List Recommendation)
  | _, _, [] => some []
  | i, n, kv :: rest =>
    let f := info.getD kv.DID Follow.zero
    let rec0 : Recommendation :=
      { Rank := i + 1, Handle := f.Handle, DisplayName := [], Bio := [],
        FollowersCount := 0, FollowedBy := kv.Count,
        URL := ascii "https://bsky.app/profile/" ++ f.Handle }
    let rec1 : Option Recommendation :=
      match getProfile env n f.Handle with
      | .ok p =>
        (truncate p.Description 100).map (fun bio =>
          { rec0 with DisplayName := p.DisplayName, Bio := bio,
                      FollowersCount := p.FollowersCount })
      | .error _ => some rec0
    match rec1, enrichFrom env info (i + 1) (n + 1) rest with
    | some r, some rs => some (r :: rs)
    | _, _ => none

/-- Lines 223-243: the recommendations for the ranked candidates `sorted`, the first
profile request being API call `n`. -/
def enrich (env : Env) (info : GoMap GoString Follow) (n : Nat) (sorted : List KV) :
    Option (List Recommendation) :=
  enrichFrom env info 0 n sorted


/-! ## Vocabulary of the specification -/

/-- The ExclusionSet of the specification: the origin's identifier and the identifier
of every first-hop follow. -/
def exclusionSet (myDID : GoString) (myFollows : List Follow) : List GoString :=
  myDID :: myFollows.map Follow.DID

/-- The number of occurrences of the identifier `d` in a follow list. -/
def occurrences (d : GoString) (l : List Follow) : Nat :=
  l.countP (fun f => decide (f.DID = d))

/-- The second-hop edges in traversal order: first-hop accounts in the order received,
edges in the order of each fetched list. -/
def traversal (hops : List (Follow × List Follow)) : List Follow :=
  hops.flatMap Prod.snd

/-- The number of distinct first-hop accounts whose fetched follow list contains the
identifier `d`: the support count as the specification's glossary words it. -/
def distinctSupporters (d : GoString) (hops : List (Follow × List Follow)) : Nat :=
  ((hops.filter (fun h => h.2.any (fun f => decide (f.DID = d)))).map
    (fun h => h.1.DID)).dedup.length

/-! ## Sample inputs -/

/-- The identifier of a sample origin account. -/
def didO : GoString := ascii "did:plc:o"

/-- A sample account with the given identifier and handle. -/
def account (did handle : String) : Follow := ⟨ascii did, ascii handle, [], []⟩

/-- Sample first-hop account A. -/
def accA : Follow := account "did:plc:a" "a.test"

/-- Sample first-hop account B. -/
def accB : Follow := account "did:plc:b" "b.test"

/-- Sample second-hop account X. -/
def accX : Follow := account "did:plc:x" "x.test"

/-- Sample second-hop account Y. -/
def accY : Follow := account "did:plc:y" "y.test"

/-- Sample second-hop account Z. -/
def accZ : Follow := account "did:plc:z" "z.test"

/-- The scenario of the specification: the origin follows A and B, A follows X and Y,
B follows X and Z. -/
def hopsScenario : List (Follow × List Follow) := [(accA, [accX, accY]), (accB, [accX, accZ])]

/-- The origin follows A only, and the list fetched for A names X twice. -/
def hopsRepeated : List (Follow × List Follow) := [(accA, [accX, accX])]

/-- The account X as B's list shows it: same identifier, other handle, display name and
description. -/
def accXlater : Follow := ⟨ascii "did:plc:x", ascii "x2.test", ascii "Other", ascii "changed"⟩

/-- The scenario with X renamed between the fetch of A's list and the fetch of B's. -/
def hopsRenamed : List (Follow × List Follow) :=
  [(accA, [accX, accY]), (accB, [accXlater, accZ])]

/-- The scenario with a third first-hop account, between A and B, whose fetch failed and
returned no edges. -/
def hopsFailed : List (Follow × List Follow) :=
  [(accA, [accX, accY]), (account "did:plc:c" "c.test", []), (accB, [accX, accZ])]

/-- An environment in which every API call fails. -/
def offlineEnv : Env :=
  { apiGet := fun _ _ _ => .error (ascii "offline")
    unmarshalProfile := fun _ => .error (ascii "bad json")
    unmarshalFollows := fun _ => .error (ascii "bad json") }

/-- The scenario with two edges that must be skipped: A also follows B (already
followed by the origin) and the origin itself. -/
def hopsBack : List (Follow × List Follow) :=
  [(accA, [accX, accB, account "did:plc:o" "o.test"]), (accB, [accX, accZ])]

/-- What lines 225-239 make of one ranked candidate: `r` is the entry built for `kv` at
0-based position `i`, its profile request being API call `n`. -/
def IsEntryOf (env : Env) (info : GoMap GoString Follow) (i n : Nat) (kv : KV)
    (r : Recommendation) : Prop :=
  r.Rank = i + 1 ∧ r.Handle = (info.getD kv.DID Follow.zero).Handle ∧
  r.FollowedBy = kv.Count ∧
  r.URL = ascii "https://bsky.app/profile/" ++ (info.getD kv.DID Follow.zero).Handle ∧
  match getProfile env n (info.getD kv.DID Follow.zero).Handle with
  | .ok p => r.DisplayName = p.DisplayName ∧ truncate p.Description 100 = some r.Bio ∧
      r.FollowersCount = p.FollowersCount
  | .error _ => r.DisplayName = [] ∧ r.Bio = [] ∧ r.FollowersCount = 0

/-- Lines 174-243 of `main` once the follow lists are fetched: aggregation over `hops`,
ranking of the candidates visited in the order `visit`, and enrichment with the
profile requests starting at API call `n`. -/
def recommend (env : Env) (srt : (KV → KV → Bool) → List KV → List KV) (myDID : GoString)
    (hops : List (Follow × List Follow)) (visit : List (GoString × Nat)) (n : Nat) :
    Option (List Recommendation) :=
  match rankTop srt (collect visit) with
  | none => none
  | some sorted => enrich env (aggregate myDID hops).info n sorted

/-! ## The program (`main`, lines 137-263) -/

/-- The loop of lines 185-199 as written: every iteration calls `getAllFollows` for the
first-hop account and aggregates the edges it returns; the error result is discarded.
`none` when a pagination runs out of fuel. -/
def secondHopLoop (env : Env) (fuel : Nat) (myDID : GoString)
    (followed : GoMap GoString Bool) : List Follow → Nat → AggState → Option (AggState × Nat)
  | [], n, st => some (st, n)
  | follow :: rest, n, st =>
    match getAllFollows env fuel follow.Handle n with
    | none => none
    | some r =>
      secondHopLoop env fuel myDID followed rest r.2 (r.1.1.foldl (aggStep myDID followed) st)

/-- The follow lists the loop of lines 185-199 fetches, each paired with its first-hop
account, and the API call counter after the last fetch. -/
def fetchHops (env : Env) (fuel : Nat) :
    List Follow → Nat → Option (List (Follow × List Follow) × Nat)
  | [], n => some ([], n)
  | follow :: rest, n =>
    match getAllFollows env fuel follow.Handle n with
    | none => none
    | some r => (fetchHops env fuel rest r.2).map (fun h => ((follow, r.1.1) :: h.1, h.2))

/-- The Go type `Output`. -/
structure Output where
  User : GoString
  Recommendations : List Recommendation
deriving DecidableEq, Repr

/-- The ways `main` ends with `os.Exit(1)`: wrong argument count (line 151), origin
profile not fetched (line 162), first-hop list empty or not fetched (line 170). -/
inductive Exit where
  | usage
  | userNotFound
  | noFollows
deriving DecidableEq, Repr

/-- The library call `strings.TrimPrefix(s, "@")`. -/
def trimAt (s : GoString) : GoString :=
  match s with
  | 0x40 :: rest => rest
  | _ => s

/-- The function `main`, lines 137-263, without its printing: `args` is `os.Args`, `order`
gives the order in which `range counts` visits the entries, and the result is the
in-memory `Output` value built at line 263.  Its encoding by `json.MarshalIndent` and
the two files written from it (lines 264-282) are not modelled.  `none` when a
pagination runs out of fuel or `truncate` panics. -/
def main (env : Env) (fuel : Nat) (srt : (KV → KV → Bool) → List KV → List KV)
    (order : List (GoString × Nat) → List (GoString × Nat)) (args : List GoString) :
    Option (Except Exit Output) :=
  match args with
  | [_, arg] =>
    let handle := trimAt arg
    match getProfile env 0 handle with
    | .error _ => some (.error Exit.userNotFound)
    | .ok profile =>
      let myDID := profile.DID
      match getAllFollows env fuel handle 1 with
      | none => none
      | some r =>
        let myFollows := r.1.1
        if r.1.2.isSome || myFollows.length = 0 then some (.error Exit.noFollows)
        else
          match secondHopLoop env fuel myDID (followedDIDs myFollows) myFollows r.2
              AggState.init with
          | none => none
          | some a =>
            match rankTop srt (collect (order a.1.counts.entries)) with
            | none => none
            | some sorted =>
              (enrich env a.1.info a.2 sorted).map (fun recs => .ok ⟨handle, recs⟩)
  | _ => some (.error Exit.usage)

/-- The chain of page outcomes of one run of the loop of `getAllFollows` that starts at
API call `n` with `cursor`: every page is the one `fetchPage` returns for the cursor of
the page before it (a missing outcome, `none`, is a failed fetch or decoding); every page
but the last is fetched with a non-empty next-cursor, and the last page is a failure or
has an empty next-cursor. -/
def IsPageChain (env : Env) (handle : GoString) :
    Nat → GoString → List (Option FollowsResponse) → Prop
  | _, _, [] => False
  | n, cursor, [p] => fetchPage env handle n cursor = p ∧ ∀ r, p = some r → r.Cursor = []
  | n, cursor, p :: q :: ps =>
    ∃ r, p = some r ∧ fetchPage env handle n cursor = some r ∧ r.Cursor ≠ [] ∧
      IsPageChain env handle (n + 1) r.Cursor (q :: ps)

/-- The edges of the successfully fetched and decoded pages, in page order. -/
def pageEdges (pages : List (Option FollowsResponse)) : List Follow :=
  (pages.filterMap id).flatMap FollowsResponse.Follows

/-- The first page of the sample follow source: 100 edges and the next-cursor `c1`. -/
def page1 : FollowsResponse := ⟨List.replicate 100 accX, ascii "c1"⟩

/-- The second page: 100 edges and the next-cursor `c2`. -/
def page2 : FollowsResponse := ⟨List.replicate 100 accY, ascii "c2"⟩

/-- The third and last page: 50 edges and no next-cursor. -/
def page3 : FollowsResponse := ⟨List.replicate 50 accZ, []⟩

/-- A follow source of three pages: the body it returns is the cursor it was asked with
(`start` without one), and the decoder maps the three bodies to the three pages. -/
def pagedEnv : Env :=
  { apiGet := fun _ _ params => .ok (params.getD (ascii "cursor") (ascii "start"))
    unmarshalProfile := fun _ => .error (ascii "bad json")
    unmarshalFollows := fun body =>
      if body = ascii "start" then .ok page1
      else if body = ascii "c1" then .ok page2
      else if body = ascii "c2" then .ok page3
      else .error (ascii "bad json") }

/-- A follow source in which `o.test` follows A only and the list returned for `a.test`
names X twice; every list fits one page and every profile carries the identifier
`did:plc:o`. -/
def repeatEnv : Env :=
  { apiGet := fun _ _ params => .ok (params.getD (ascii "actor") [])
    unmarshalProfile := fun body =>
      .ok { DID := didO, Handle := body, DisplayName := ascii "Name",
            Description := ascii "bio", FollowersCount := 1500, FollowsCount := 1 }
    unmarshalFollows := fun body =>
      if body = ascii "o.test" then .ok ⟨[accA], []⟩
      else if body = ascii "a.test" then .ok ⟨[accX, accX], []⟩
      else .error (ascii "bad json") }

/-- A candidate set with 31 candidates: candidate `i` has support count `i`. -/
def manyCounts : GoMap GoString Nat :=
  ⟨(List.range 31).map (fun i => ([Fin.ofNat i], i))⟩

/-- A candidate set with 31 candidates, every one with support count 1. -/
def tiedCounts : GoMap GoString Nat :=
  ⟨(List.range 31).map (fun i => ([Fin.ofNat i], 1))⟩

/-- The scenario's candidates visited in the order X, Y, Z. -/
def visitXYZ : List (GoString × Nat) := [(accX.DID, 2), (accY.DID, 1), (accZ.DID, 1)]

/-- The scenario's candidates visited in the order X, Z, Y. -/
def visitXZY : List (GoString × Nat) := [(accX.DID, 2), (accZ.DID, 1), (accY.DID, 1)]

/-- An environment whose profile endpoint answers every call except API call 2, which
fails; the profile returned repeats the requested handle and has a description with a
line break and surrounding blanks. -/
def flakyEnv : Env :=
  { apiGet := fun n _ params =>
      if n = 2 then .error (ascii "timeout") else .ok (params.getD (ascii "actor") [])
    unmarshalProfile := fun body =>
      .ok { DID := [], Handle := body, DisplayName := ascii "Name",
            Description := ascii " two\nlines ", FollowersCount := 7, FollowsCount := 0 }
    unmarshalFollows := fun _ => .error (ascii "bad json") }

/-- Thirty ranked candidates with support counts 30 down to 1. -/
def sorted30 : List KV := (List.range 30).map (fun i => KV.mk [Fin.ofNat i] (30 - i))

/-- The snapshots of the thirty candidates: candidate `i` has the one-byte handle `i`. -/
def info30 : GoMap GoString Follow :=
  ⟨(List.range 30).map (fun i => ([Fin.ofNat i], Follow.mk [Fin.ofNat i] [Fin.ofNat i] [] []))⟩

/-- A follow source and profile source for the scenario of the specification: the body
of every response is the requested actor; `o.test` follows A and B, `a.test` follows X
and Y, `b.test` follows X and Z, every list fits one page, and every profile carries
the identifier `did:plc:o`, a display name and 1500 followers. -/
def graphEnv : Env :=
  { apiGet := fun _ _ params => .ok (params.getD (ascii "actor") [])
    unmarshalProfile := fun body =>
      .ok { DID := didO, Handle := body, DisplayName := ascii "Name",
            Description := ascii "bio", FollowersCount := 1500, FollowsCount := 2 }
    unmarshalFollows := fun body =>
      if body = ascii "o.test" then .ok ⟨[accA, accB], []⟩
      else if body = ascii "a.test" then .ok ⟨[accX, accY], []⟩
      else if body = ascii "b.test" then .ok ⟨[accX, accZ], []⟩
      else .error (ascii "bad json") }

/-! # Properties -/

/-! ## Go maps -/

section GoMapLemmas

variable {κ ν : Type} [DecidableEq κ]

theorem findEntry_setEntry_self (k : κ) (v : ν) (l : List (κ × ν)) :
    findEntry k (setEntry k v l) = some v := by
  induction l with
  | nil => simp [setEntry, findEntry]
  | cons e rest ih =>
    by_cases h : e.1 = k
    · simp [setEntry, findEntry, h]
    · simp [setEntry, findEntry, h, ih]

theorem findEntry_setEntry_ne {k k0 : κ} (v : ν) (l : List (κ × ν)) (h : k0 ≠ k) :
    findEntry k0 (setEntry k v l) = findEntry k0 l := by
  induction l with
  | nil => simp [setEntry, findEntry, h.symm]
  | cons e rest ih =>
    by_cases he : e.1 = k
    · have : e.1 ≠ k0 := by rw [he]; exact h.symm
      simp [setEntry, findEntry, he, h.symm, this]
    · by_cases h0 : e.1 = k0
      · simp [setEntry, findEntry, he, h0, h]
      · simp [setEntry, findEntry, he, h0, ih]

theorem findEntry_eq_none_iff (k : κ) (l : List (κ × ν)) :
    findEntry k l = none ↔ k ∉ l.map Prod.fst := by
  induction l with
  | nil => simp [findEntry]
  | cons e rest ih =>
    by_cases h : e.1 = k
    · simp [findEntry, h]
    · simp only [findEntry, h, if_false, ih, List.map_cons, List.mem_cons, not_or]
      constructor
      · intro hr; exact ⟨fun hk => h hk.symm, hr⟩
      · intro hr; exact hr.2

theorem findEntry_of_mem {k : κ} {v : ν} {l : List (κ × ν)} (hn : (l.map Prod.fst).Nodup)
    (hm : (k, v) ∈ l) : findEntry k l = some v := by
  induction l with
  | nil => simp at hm
  | cons e rest ih =>
    simp only [List.map_cons, List.nodup_cons] at hn
    rcases List.mem_cons.1 hm with h | h
    · subst h; simp [findEntry]
    · have hk : k ∈ rest.map Prod.fst := List.mem_map.2 ⟨(k, v), h, rfl⟩
      have hne : e.1 ≠ k := by
        intro he; rw [he] at hn; exact hn.1 hk
      simp [findEntry, hne, ih hn.2 h]

theorem keys_setEntry (k : κ) (v : ν) (l : List (κ × ν)) :
    (setEntry k v l).map Prod.fst =
      if k ∈ l.map Prod.fst then l.map Prod.fst else l.map Prod.fst ++ [k] := by
  induction l with
  | nil => simp [setEntry]
  | cons e rest ih =>
    by_cases he : e.1 = k
    · simp [setEntry, he]
    · have hne : ¬ k = e.1 := fun h => he h.symm
      simp only [setEntry, he, if_false, List.map_cons, ih, List.mem_cons, hne, false_or]
      split <;> simp

theorem nodup_keys_setEntry (k : κ) (v : ν) (l : List (κ × ν))
    (hn : (l.map Prod.fst).Nodup) : ((setEntry k v l).map Prod.fst).Nodup := by
  rw [keys_setEntry]
  split
  · exact hn
  · rename_i hk
    rw [List.nodup_append]
    refine ⟨hn, List.nodup_singleton k, ?_⟩
    intro a ha hb
    simp only [List.mem_singleton] at hb
    subst hb
    exact hk ha

theorem GoMap.find?_set_self (m : GoMap κ ν) (k : κ) (v : ν) :
    (m.set k v).find? k = some v := findEntry_setEntry_self k v m.entries

theorem GoMap.find?_set_ne (m : GoMap κ ν) {k k0 : κ} (v : ν) (h : k0 ≠ k) :
    (m.set k v).find? k0 = m.find? k0 := findEntry_setEntry_ne v m.entries h

theorem GoMap.find?_empty (k : κ) : (GoMap.empty : GoMap κ ν).find? k = none := rfl

theorem GoMap.mem_keys_iff (m : GoMap κ ν) (k : κ) :
    k ∈ m.keys ↔ (m.find? k).isSome = true := by
  unfold GoMap.keys GoMap.find?
  cases h : findEntry k m.entries with
  | none => simpa using (findEntry_eq_none_iff k m.entries).1 h
  | some v =>
    simp only [Option.isSome_some, iff_true]
    by_contra hc
    rw [(findEntry_eq_none_iff k m.entries).2 hc] at h
    cases h

end GoMapLemmas

/-! ## Aggregation -/

theorem followedDIDs_fold_getD (fs : List Follow) (m : GoMap GoString Bool) (d : GoString) :
    (fs.foldl (fun m f => m.set f.DID true) m).getD d false = true ↔
      m.getD d false = true ∨ d ∈ fs.map Follow.DID := by
  induction fs generalizing m with
  | nil => simp
  | cons f rest ih =>
    rw [List.foldl_cons, ih]
    by_cases h : d = f.DID
    · subst h
      simp [GoMap.getD, GoMap.find?_set_self]
    · have h2 : ¬ f.DID = d := fun e => h e.symm
      simp [GoMap.getD, GoMap.find?_set_ne _ _ h, h, h2]

theorem followedDIDs_getD (fs : List Follow) (d : GoString) :
    (followedDIDs fs).getD d false = true ↔ d ∈ fs.map Follow.DID := by
  unfold followedDIDs
  rw [followedDIDs_fold_getD]
  simp [GoMap.getD, GoMap.find?_empty]

theorem aggLoop_eq_foldl (myDID : GoString) (fl : GoMap GoString Bool)
    (hops : List (Follow × List Follow)) (st : AggState) :
    aggLoop myDID fl hops st = (traversal hops).foldl (aggStep myDID fl) st := by
  induction hops generalizing st with
  | nil => rfl
  | cons hop rest ih =>
    simp only [aggLoop, traversal, List.flatMap_cons, List.foldl_append]
    exact ih _

theorem aggStep_excluded {myDID : GoString} {fl : GoMap GoString Bool} (st : AggState)
    {f : Follow} (h : f.DID = myDID ∨ fl.getD f.DID false = true) :
    aggStep myDID fl st f = st := by
  unfold aggStep
  rw [if_pos]
  simpa using h

theorem aggStep_counted {myDID : GoString} {fl : GoMap GoString Bool} (st : AggState)
    {f : Follow} (h : ¬ (f.DID = myDID ∨ fl.getD f.DID false = true)) :
    aggStep myDID fl st f =
      { counts := st.counts.set f.DID (st.counts.getD f.DID 0 + 1)
        info := if (st.info.find? f.DID).isSome then st.info else st.info.set f.DID f } := by
  unfold aggStep
  rw [if_neg]
  simpa using h

theorem counts_find?_foldl (myDID : GoString) (fl : GoMap GoString Bool) (d : GoString)
    (l : List Follow) (st : AggState) :
    (l.foldl (aggStep myDID fl) st).counts.find? d =
      if (d = myDID ∨ fl.getD d false = true) ∨ occurrences d l = 0 then st.counts.find? d
      else some (st.counts.getD d 0 + occurrences d l) := by
  induction l generalizing st with
  | nil => simp [occurrences]
  | cons f rest ih =>
    rw [List.foldl_cons, ih]
    by_cases hx : d = myDID ∨ fl.getD d false = true
    · simp only [hx, true_or, if_true]
      by_cases hf : f.DID = d
      · rw [aggStep_excluded]; rw [hf]; exact hx
      · by_cases hfx : f.DID = myDID ∨ fl.getD f.DID false = true
        · rw [aggStep_excluded _ hfx]
        · rw [aggStep_counted _ hfx]
          exact GoMap.find?_set_ne _ _ (fun e => hf e.symm)
    · simp only [hx, false_or]
      by_cases hf : f.DID = d
      · have hfx : ¬ (f.DID = myDID ∨ fl.getD f.DID false = true) := by rw [hf]; exact hx
        rw [aggStep_counted _ hfx]
        have ho : occurrences d (f :: rest) = occurrences d rest + 1 := by
          simp [occurrences, List.countP_cons, hf]
        rw [ho, hf]
        simp only [GoMap.getD, GoMap.find?_set_self, Option.getD_some, Nat.add_one_ne_zero,
          if_false]
        split
        · rename_i h0; rw [h0]
        · rename_i h0; congr 1; omega
      · have ho : occurrences d (f :: rest) = occurrences d rest := by
          simp [occurrences, List.countP_cons, hf]
        rw [ho]
        by_cases hfx : f.DID = myDID ∨ fl.getD f.DID false = true
        · rw [aggStep_excluded _ hfx]
        · rw [aggStep_counted _ hfx]
          simp only [GoMap.getD, GoMap.find?_set_ne _ _ (fun e => hf e.symm)]

theorem info_find?_foldl (myDID : GoString) (fl : GoMap GoString Bool) (d : GoString)
    (l : List Follow) (st : AggState) :
    (l.foldl (aggStep myDID fl) st).info.find? d =
      if (st.info.find? d).isSome then st.info.find? d
      else if d = myDID ∨ fl.getD d false = true then none
      else l.find? (fun f => decide (f.DID = d)) := by
  induction l generalizing st with
  | nil =>
    cases h : st.info.find? d <;> simp [h]
  | cons f rest ih =>
    rw [List.foldl_cons, ih]
    by_cases hfx : f.DID = myDID ∨ fl.getD f.DID false = true
    · rw [aggStep_excluded _ hfx]
      by_cases hs : (st.info.find? d).isSome
      · simp [hs]
      · simp only [hs, if_false]
        by_cases hx : d = myDID ∨ fl.getD d false = true
        · simp [hx]
        · have hf : ¬ f.DID = d := by
            intro e; rw [e] at hfx; exact hx hfx
          simp [hx, List.find?_cons, hf]
    · rw [aggStep_counted _ hfx]
      by_cases hf : f.DID = d
      · have hx : ¬ (d = myDID ∨ fl.getD d false = true) := by rw [← hf]; exact hfx
        subst hf
        by_cases hs : (st.info.find? f.DID).isSome
        · simp [hs]
        · simp [hs, GoMap.find?_set_self, hx, List.find?_cons]
      · have hne : d ≠ f.DID := fun e => hf e.symm
        have : (if (st.info.find? f.DID).isSome = true then st.info
            else st.info.set f.DID f).find? d = st.info.find? d := by
          split
          · rfl
          · exact GoMap.find?_set_ne _ _ hne
        simp only [this, List.find?_cons, hf, decide_False]

theorem counts_nodup_foldl (myDID : GoString) (fl : GoMap GoString Bool)
    (l : List Follow) (st : AggState) (h : st.counts.keys.Nodup) :
    (l.foldl (aggStep myDID fl) st).counts.keys.Nodup := by
  induction l generalizing st with
  | nil => exact h
  | cons f rest ih =>
    rw [List.foldl_cons]
    apply ih
    by_cases hfx : f.DID = myDID ∨ fl.getD f.DID false = true
    · rw [aggStep_excluded _ hfx]; exact h
    · rw [aggStep_counted _ hfx]
      exact nodup_keys_setEntry _ _ _ h

/-- After aggregation the entry of `d` in `counts` is absent when `d` is excluded or
never occurs, and holds the number of occurrences of `d` otherwise. -/
theorem aggregate_counts_find? (myDID : GoString) (hops : List (Follow × List Follow))
    (d : GoString) :
    (aggregate myDID hops).counts.find? d =
      if d ∈ exclusionSet myDID (hops.map Prod.fst) ∨ occurrences d (traversal hops) = 0
      then none else some (occurrences d (traversal hops)) := by
  unfold aggregate
  rw [aggLoop_eq_foldl, counts_find?_foldl]
  simp only [followedDIDs_getD]
  simp only [exclusionSet, AggState.init, GoMap.getD, GoMap.find?_empty, Option.getD_none,
    Nat.zero_add]
  exact if_congr (or_congr List.mem_cons.symm Iff.rfl) rfl rfl

theorem aggregate_info_find? (myDID : GoString) (hops : List (Follow × List Follow))
    (d : GoString) :
    (aggregate myDID hops).info.find? d =
      if d ∈ exclusionSet myDID (hops.map Prod.fst) then none
      else (traversal hops).find? (fun f => decide (f.DID = d)) := by
  unfold aggregate
  rw [aggLoop_eq_foldl, info_find?_foldl]
  simp only [followedDIDs_getD]
  simp only [exclusionSet, AggState.init, GoMap.find?_empty, Option.isSome_none,
    Bool.false_eq_true, if_false]
  exact if_congr List.mem_cons.symm rfl rfl

theorem aggregate_counts_nodup (myDID : GoString) (hops : List (Follow × List Follow)) :
    (aggregate myDID hops).counts.keys.Nodup := by
  unfold aggregate
  rw [aggLoop_eq_foldl]
  exact counts_nodup_foldl _ _ _ _ (by simp [AggState.init, GoMap.empty, GoMap.keys])

/-! ## Sorting and ranking -/

theorem byCountDesc_eq_false {a b : KV} : byCountDesc b a = false ↔ b.Count ≤ a.Count := by
  simp [byCountDesc]

theorem insertBack_perm {α : Type} (less : α → α → Bool) (x : α) (l : List α) :
    (insertBack less x l).Perm (x :: l) := by
  induction l with
  | nil => exact List.Perm.refl _
  | cons y ys ih =>
    unfold insertBack
    split
    · exact ((List.Perm.cons y ih).trans (List.Perm.swap x y ys))
    · exact List.Perm.refl _

theorem insertBack_sorted (x : KV) (l : List KV)
    (h : l.Pairwise (fun a b => byCountDesc a b = false)) :
    (insertBack byCountDesc x l).Pairwise (fun a b => byCountDesc a b = false) := by
  induction l with
  | nil => simp [insertBack]
  | cons y ys ih =>
    rw [List.pairwise_cons] at h
    unfold insertBack
    split
    · rename_i hxy
      rw [List.pairwise_cons]
      refine ⟨?_, ih h.2⟩
      intro z hz
      rcases List.mem_cons.1 ((insertBack_perm byCountDesc x ys).subset hz) with hzx | hzy
      · subst hzx
        simp only [byCountDesc, decide_eq_true_eq, decide_eq_false_iff_not] at hxy ⊢
        omega
      · exact h.1 z hzy
    · rename_i hxy
      rw [List.pairwise_cons]
      refine ⟨?_, List.pairwise_cons.2 h⟩
      intro z hz
      rcases List.mem_cons.1 hz with hzy | hzy
      · subst hzy; simpa using hxy
      · have := h.1 z hzy
        simp only [byCountDesc, decide_eq_true_eq, decide_eq_false_iff_not,
          Bool.not_eq_true] at hxy this ⊢
        omega

theorem insertionSort_fold_perm {α : Type} (less : α → α → Bool) (xs acc : List α) :
    (xs.foldl (fun sortedRev x => insertBack less x sortedRev) acc).Perm (xs ++ acc) := by
  induction xs generalizing acc with
  | nil => exact List.Perm.refl _
  | cons x rest ih =>
    rw [List.foldl_cons]
    refine (ih _).trans ?_
    refine (List.Perm.append_left rest (insertBack_perm less x acc)).trans ?_
    exact List.perm_middle

theorem insertionSort_fold_sorted (xs acc : List KV)
    (h : acc.Pairwise (fun a b => byCountDesc a b = false)) :
    (xs.foldl (fun sortedRev x => insertBack byCountDesc x sortedRev) acc).Pairwise
      (fun a b => byCountDesc a b = false) := by
  induction xs generalizing acc with
  | nil => exact h
  | cons x rest ih =>
    rw [List.foldl_cons]
    exact ih _ (insertBack_sorted x acc h)

/-- The library's insertion sort meets the contract of `sort.Slice`. -/
theorem insertionSortLessFunc_spec : SortSliceSpec insertionSortLessFunc where
  perm xs := by
    unfold insertionSortLessFunc
    refine (List.reverse_perm _).trans ?_
    simpa using insertionSort_fold_perm byCountDesc xs []
  sorted xs := by
    unfold insertionSortLessFunc
    rw [List.pairwise_reverse]
    exact insertionSort_fold_sorted xs [] List.Pairwise.nil

/-- The slice expression of line 219 is always within bounds: ranking returns the first
30 elements of the sorted list. -/
theorem rankTop_eq_some (srt : (KV → KV → Bool) → List KV → List KV) (cands : List KV) :
    rankTop srt cands = some ((srt byCountDesc cands).take 30) := by
  unfold rankTop sliceTo
  simp only
  split
  · rename_i h
    rw [if_pos (Nat.le_refl _), List.take_of_length_le (Nat.le_refl _),
      List.take_of_length_le (Nat.le_of_lt h)]
  · rename_i h
    rw [if_pos (Nat.le_of_not_lt h)]

theorem take30_length {srt : (KV → KV → Bool) → List KV → List KV} (hs : SortSliceSpec srt)
    (cands : List KV) : ((srt byCountDesc cands).take 30).length = min 30 cands.length := by
  rw [List.length_take, (hs.perm cands).length_eq]

theorem take30_subset {srt : (KV → KV → Bool) → List KV → List KV} (hs : SortSliceSpec srt)
    (cands : List KV) {kv : KV} (h : kv ∈ (srt byCountDesc cands).take 30) : kv ∈ cands :=
  (hs.perm cands).subset (List.mem_of_mem_take h)

theorem take30_sorted {srt : (KV → KV → Bool) → List KV → List KV} (hs : SortSliceSpec srt)
    (cands : List KV) :
    ((srt byCountDesc cands).take 30).Pairwise (fun a b => b.Count ≤ a.Count) := by
  have h := (hs.sorted cands).sublist (List.take_sublist 30 _)
  exact h.imp (fun hab => byCountDesc_eq_false.1 hab)

theorem collect_mem {visit : List (GoString × Nat)} {kv : KV} (h : kv ∈ collect visit) :
    (kv.DID, kv.Count) ∈ visit := by
  unfold collect at h
  obtain ⟨e, he, rfl⟩ := List.mem_map.1 h
  exact he

theorem collect_map_DID (visit : List (GoString × Nat)) :
    (collect visit).map KV.DID = visit.map Prod.fst := by
  simp [collect, Function.comp_def]

/-! ## Truncation -/

theorem dropSpaces_suffix (pats : List GoString) (fuel : Nat) (s : GoString) :
    dropSpaces pats fuel s <:+ s := by
  induction fuel generalizing s with
  | zero => exact List.suffix_refl s
  | succ k ih =>
    unfold dropSpaces
    split
    · exact List.suffix_refl s
    · exact (ih _).trans (List.drop_suffix _ s)

/-- The result of `trimSpace` is a contiguous part of its argument. -/
theorem trimSpace_contiguous (s : GoString) : trimSpace s <:+: s := by
  unfold trimSpace
  simp only
  have h1 := dropSpaces_suffix spaceRunes s.length s
  have h2 := dropSpaces_suffix (spaceRunes.map List.reverse)
    (dropSpaces spaceRunes s.length s).length (dropSpaces spaceRunes s.length s).reverse
  have h3 := List.reverse_prefix.2 h2
  rw [List.reverse_reverse] at h3
  exact h3.isInfix.trans h1.isInfix

theorem not_mem_replaceAllByte (old new : Byte) (h : new ≠ old) (s : GoString) :
    old ∉ replaceAllByte old new s := by
  unfold replaceAllByte
  intro hm
  obtain ⟨b, _, hb⟩ := List.mem_map.1 hm
  by_cases hbo : b = old
  · rw [if_pos hbo] at hb; exact h hb
  · rw [if_neg hbo] at hb; exact hbo hb

theorem not_mem_trimmed (s : GoString) :
    (0x0A : Byte) ∉ trimSpace (replaceAllByte 0x0A 0x20 s) := fun h =>
  not_mem_replaceAllByte 0x0A 0x20 (by decide) s ((trimSpace_contiguous _).subset h)

theorem length_ascii_dots : (ascii "...").length = 3 := by decide

theorem not_mem_ascii_dots : (0x0A : Byte) ∉ ascii "..." := by decide

/-- The branches of `truncate` for `max ≥ 3`, in terms of the trimmed string. -/
theorem truncate_eq (s : GoString) (max : Int) (h : 3 ≤ max) :
    truncate s max =
      if max < ((trimSpace (replaceAllByte 0x0A 0x20 s)).length : Int) then
        some ((trimSpace (replaceAllByte 0x0A 0x20 s)).take (max - 3).toNat ++ ascii "...")
      else some (trimSpace (replaceAllByte 0x0A 0x20 s)) := by
  unfold truncate
  simp only [gt_iff_lt]
  split
  · rename_i hlt
    rw [if_pos]
    omega
  · rfl

theorem truncate_isSome (s : GoString) (max : Int) (h : 3 ≤ max) :
    ∃ r, truncate s max = some r := by
  rw [truncate_eq s max h]
  split <;> exact ⟨_, rfl⟩

theorem length_le_of_flatten {chars : List GoString} (h : ∀ c ∈ chars, c ≠ []) :
    chars.length ≤ chars.flatten.length := by
  induction chars with
  | nil => simp
  | cons c rest ih =>
    have hc : c ≠ [] := h c (List.mem_cons_self _ _)
    have hpos : 0 < c.length := List.length_pos.2 hc
    have := ih (fun d hd => h d (List.mem_cons_of_mem _ hd))
    simp only [List.flatten_cons, List.length_append, List.length_cons]
    omega

/-! ## White-space trimming -/

theorem spaceWidth_eq_zero_iff (pats : List GoString) (hp : ∀ p ∈ pats, p ≠ [])
    (s : GoString) :
    spaceWidth pats s = 0 ↔ ∀ p ∈ pats, s.take p.length ≠ p := by
  unfold spaceWidth
  cases hfind : pats.find? (fun p => (s.take p.length == p)) with
  | none =>
    simp only [true_iff]
    intro p hpm
    have := List.find?_eq_none.1 hfind p hpm
    simpa using this
  | some p =>
    have hmem := List.mem_of_find?_eq_some hfind
    have hmatch := List.find?_some hfind
    simp only [beq_iff_eq] at hmatch
    constructor
    · intro h0
      exact absurd (List.length_eq_zero.1 h0) (hp p hmem)
    · intro hall
      exact absurd hmatch (hall p hmem)

theorem spaceWidth_take_mem (pats : List GoString) (s : GoString)
    (h : spaceWidth pats s ≠ 0) : s.take (spaceWidth pats s) ∈ pats := by
  unfold spaceWidth at h ⊢
  cases hfind : pats.find? (fun p => (s.take p.length == p)) with
  | none => rw [hfind] at h; exact absurd rfl h
  | some p =>
    have hmem := List.mem_of_find?_eq_some hfind
    have hmatch := List.find?_some hfind
    simp only [beq_iff_eq] at hmatch
    simp only [hmatch]
    exact hmem

theorem spaceWidth_le_length (pats : List GoString) (s : GoString) :
    spaceWidth pats s ≤ s.length := by
  unfold spaceWidth
  cases hfind : pats.find? (fun p => (s.take p.length == p)) with
  | none => exact Nat.zero_le _
  | some p =>
    have hmatch := List.find?_some hfind
    simp only [beq_iff_eq] at hmatch
    have := congrArg List.length hmatch
    rw [List.length_take] at this
    simp only
    omega

/-- With fuel for every byte, `dropSpaces` stops at a string that starts with no
white-space rune. -/
theorem spaceWidth_dropSpaces (pats : List GoString) (fuel : Nat) (s : GoString)
    (h : s.length ≤ fuel) : spaceWidth pats (dropSpaces pats fuel s) = 0 := by
  induction fuel generalizing s with
  | zero =>
    have := spaceWidth_le_length pats s
    unfold dropSpaces
    omega
  | succ k ih =>
    unfold dropSpaces
    split
    · assumption
    · rename_i hw
      apply ih
      have := spaceWidth_le_length pats s
      rw [List.length_drop]
      omega

/-- What `dropSpaces` removes is a sequence of white-space runes. -/
theorem dropSpaces_removed (pats : List GoString) (fuel : Nat) (s : GoString) :
    ∃ runes : List GoString, (∀ r ∈ runes, r ∈ pats) ∧
      s = runes.flatten ++ dropSpaces pats fuel s := by
  induction fuel generalizing s with
  | zero => exact ⟨[], by simp, by simp [dropSpaces]⟩
  | succ k ih =>
    unfold dropSpaces
    split
    · exact ⟨[], by simp, by simp⟩
    · rename_i hw
      obtain ⟨runes, hr, hs⟩ := ih (s.drop (spaceWidth pats s))
      refine ⟨s.take (spaceWidth pats s) :: runes, ?_, ?_⟩
      · intro r hrm
        rcases List.mem_cons.1 hrm with h1 | h1
        · rw [h1]; exact spaceWidth_take_mem pats s hw
        · exact hr r h1
      · rw [List.flatten_cons, List.append_assoc, ← hs, List.take_append_drop]

theorem spaceRunes_ne_nil : ∀ p ∈ spaceRunes, p ≠ [] := by decide

theorem spaceRunes_reverse_ne_nil : ∀ p ∈ spaceRunes.map List.reverse, p ≠ [] := by decide

/-- The library contract of `strings.TrimSpace` holds of `trimSpace`: the argument is a
sequence of white-space runes, then the result, then a sequence of white-space runes, and
the result neither starts nor ends with a white-space rune. -/
theorem trimSpace_spec (s : GoString) :
    (∃ lead trail : List GoString, (∀ r ∈ lead, r ∈ spaceRunes) ∧
      (∀ r ∈ trail, r ∈ spaceRunes) ∧ s = lead.flatten ++ trimSpace s ++ trail.flatten) ∧
    (∀ p ∈ spaceRunes, (trimSpace s).take p.length ≠ p) ∧
    (∀ p ∈ spaceRunes, (trimSpace s).reverse.take p.length ≠ p.reverse) := by
  have hR : ∀ p ∈ spaceRunes.map List.reverse,
      (trimSpace s).reverse.take p.length ≠ p := by
    apply (spaceWidth_eq_zero_iff _ spaceRunes_reverse_ne_nil _).1
    unfold trimSpace
    simp only [List.reverse_reverse]
    exact spaceWidth_dropSpaces _ _ _ (by simp)
  have hL0 : ∀ p ∈ spaceRunes, (dropSpaces spaceRunes s.length s).take p.length ≠ p :=
    (spaceWidth_eq_zero_iff _ spaceRunes_ne_nil _).1
      (spaceWidth_dropSpaces _ _ _ (Nat.le_refl _))
  obtain ⟨lead, hlead, hs1⟩ := dropSpaces_removed spaceRunes s.length s
  obtain ⟨trailR, htrail, hs2⟩ := dropSpaces_removed (spaceRunes.map List.reverse)
    (dropSpaces spaceRunes s.length s).length (dropSpaces spaceRunes s.length s).reverse
  have hs3 : dropSpaces spaceRunes s.length s =
      trimSpace s ++ (trailR.reverse.map List.reverse).flatten := by
    have := congrArg List.reverse hs2
    rw [List.reverse_reverse, List.reverse_append, List.reverse_flatten,
      ← List.map_reverse] at this
    exact this
  refine ⟨⟨lead, trailR.reverse.map List.reverse, hlead, ?_, ?_⟩, ?_, ?_⟩
  · intro r hr
    obtain ⟨q, hq, rfl⟩ := List.mem_map.1 hr
    obtain ⟨p, hp, hpq⟩ := List.mem_map.1 (htrail q (List.mem_reverse.1 hq))
    rw [← hpq, List.reverse_reverse]
    exact hp
  · rw [List.append_assoc, ← hs3]
    exact hs1
  · intro p hp hmatch
    apply hL0 p hp
    rw [hs3]
    have hlen : p.length ≤ (trimSpace s).length := by
      have := congrArg List.length hmatch
      rw [List.length_take] at this
      omega
    rw [List.take_append_of_le_length hlen]
    exact hmatch
  · intro p hp
    have := hR p.reverse (List.mem_map.2 ⟨p, hp, rfl⟩)
    rwa [List.length_reverse] at this

/-! ## Enrichment -/

theorem enrichFrom_spec (env : Env) (info : GoMap GoString Follow) (l : List KV) (i n : Nat) :
    ∃ recs, enrichFrom env info i n l = some recs ∧ recs.length = l.length ∧
      ∀ (j : Nat) (kv : KV), l[j]? = some kv →
        ∃ r, recs[j]? = some r ∧ IsEntryOf env info (i + j) (n + j) kv r := by
  induction l generalizing i n with
  | nil => exact ⟨[], rfl, rfl, by simp⟩
  | cons kv rest ih =>
    obtain ⟨rs, hrs, hlen, hall⟩ := ih (i + 1) (n + 1)
    have hhead : ∃ r, (match getProfile env n (info.getD kv.DID Follow.zero).Handle with
        | .ok p =>
          (truncate p.Description 100).map (fun bio =>
            ({ Rank := i + 1, Handle := (info.getD kv.DID Follow.zero).Handle,
               DisplayName := p.DisplayName, Bio := bio,
               FollowersCount := p.FollowersCount, FollowedBy := kv.Count,
               URL := ascii "https://bsky.app/profile/" ++
                 (info.getD kv.DID Follow.zero).Handle } : Recommendation))
        | .error _ => some
            ({ Rank := i + 1, Handle := (info.getD kv.DID Follow.zero).Handle,
               DisplayName := [], Bio := [], FollowersCount := 0, FollowedBy := kv.Count,
               URL := ascii "https://bsky.app/profile/" ++
                 (info.getD kv.DID Follow.zero).Handle } : Recommendation)) = some r ∧
        IsEntryOf env info i n kv r := by
      unfold IsEntryOf
      cases hp : getProfile env n (info.getD kv.DID Follow.zero).Handle with
      | error e =>
        refine ⟨_, rfl, ?_⟩
        exact ⟨rfl, rfl, rfl, rfl, rfl, rfl, rfl⟩
      | ok p =>
        obtain ⟨bio, hbio⟩ := truncate_isSome p.Description 100 (by decide)
        simp only [hbio, Option.map_some']
        refine ⟨_, rfl, ?_⟩
        exact ⟨rfl, rfl, rfl, rfl, rfl, rfl, rfl⟩
    obtain ⟨r, hr, hok⟩ := hhead
    refine ⟨r :: rs, ?_, by simp [hlen], ?_⟩
    · unfold enrichFrom
      simp only [hrs]
      rw [hr]
    · intro j kv0 hj
      cases j with
      | zero =>
        simp only [List.getElem?_cons_zero, Option.some.injEq] at hj
        subst hj
        exact ⟨r, by simp, hok⟩
      | succ j =>
        simp only [List.getElem?_cons_succ] at hj
        obtain ⟨r0, hr0, h0⟩ := hall j kv0 hj
        refine ⟨r0, by simpa using hr0, ?_⟩
        have e1 : i + (j + 1) = i + 1 + j := by omega
        have e2 : n + (j + 1) = n + 1 + j := by omega
        rw [e1, e2]; exact h0

theorem enrich_spec (env : Env) (info : GoMap GoString Follow) (n : Nat) (l : List KV) :
    ∃ recs, enrich env info n l = some recs ∧ recs.length = l.length ∧
      ∀ (j : Nat) (kv : KV), l[j]? = some kv →
        ∃ r, recs[j]? = some r ∧ IsEntryOf env info j (n + j) kv r := by
  obtain ⟨recs, h1, h2, h3⟩ := enrichFrom_spec env info l 0 n
  refine ⟨recs, h1, h2, ?_⟩
  intro j kv hj
  obtain ⟨r, hr, hok⟩ := h3 j kv hj
  rw [Nat.zero_add] at hok
  exact ⟨r, hr, hok⟩

/-! ## Support counts -/

theorem occurrences_append (d : GoString) (l1 l2 : List Follow) :
    occurrences d (l1 ++ l2) = occurrences d l1 + occurrences d l2 := by
  simp [occurrences, List.countP_append]

theorem occurrences_traversal (d : GoString) (hops : List (Follow × List Follow)) :
    occurrences d (traversal hops) = (hops.map (fun h => occurrences d h.2)).sum := by
  induction hops with
  | nil => simp [traversal, occurrences]
  | cons h rest ih =>
    have : traversal (h :: rest) = h.2 ++ traversal rest := by simp [traversal]
    rw [this, occurrences_append, ih]
    simp

theorem occurrences_eq_indicator (d : GoString) (l : List Follow)
    (h : occurrences d l ≤ 1) :
    occurrences d l = if l.any (fun f => decide (f.DID = d)) = true then 1 else 0 := by
  by_cases ha : l.any (fun f => decide (f.DID = d)) = true
  · rw [if_pos ha]
    have hpos : 0 < occurrences d l := by
      unfold occurrences
      rw [List.countP_pos_iff]
      obtain ⟨f, hf, hfd⟩ := List.any_eq_true.1 ha
      exact ⟨f, hf, hfd⟩
    omega
  · rw [if_neg ha]
    unfold occurrences
    rw [List.countP_eq_zero]
    intro f hf hfd
    exact ha (List.any_eq_true.2 ⟨f, hf, hfd⟩)

theorem sum_indicator_eq_length_filter {α : Type} (p : α → Bool) (l : List α) :
    (l.map (fun a => if p a = true then 1 else 0)).sum = (l.filter p).length := by
  induction l with
  | nil => rfl
  | cons a rest ih =>
    by_cases h : p a = true
    · simp [h, ih]; omega
    · simp [h, ih]

theorem occurrences_eq_distinctSupporters (d : GoString) (hops : List (Follow × List Follow))
    (hl : ∀ hop ∈ hops, occurrences d hop.2 ≤ 1)
    (hf : ((hops.filter (fun h => h.2.any (fun f => decide (f.DID = d)))).map
      (fun h => h.1.DID)).Nodup) :
    occurrences d (traversal hops) = distinctSupporters d hops := by
  rw [occurrences_traversal]
  have h1 : hops.map (fun h => occurrences d h.2) =
      hops.map (fun h => if (fun h : Follow × List Follow =>
        h.2.any (fun f => decide (f.DID = d))) h = true then 1 else 0) := by
    apply List.map_congr_left
    intro h hh
    exact occurrences_eq_indicator d h.2 (hl h hh)
  rw [h1, sum_indicator_eq_length_filter]
  unfold distinctSupporters
  rw [List.Nodup.dedup hf, List.length_map]

/-- The count of a ranked candidate is the number of occurrences of its identifier in
the fetched lists. -/
theorem ranked_count_eq (myDID : GoString) (hops : List (Follow × List Follow))
    (srt : (KV → KV → Bool) → List KV → List KV) (visit : List (GoString × Nat))
    (hs : SortSliceSpec srt) (hv : visit.Perm (aggregate myDID hops).counts.entries)
    {kv : KV} (hkv : kv ∈ (srt byCountDesc (collect visit)).take 30) :
    kv.Count = occurrences kv.DID (traversal hops) := by
  have h1 := hv.subset (collect_mem (take30_subset hs _ hkv))
  have h2 : (aggregate myDID hops).counts.find? kv.DID = some kv.Count :=
    findEntry_of_mem (aggregate_counts_nodup myDID hops) h1
  rw [aggregate_counts_find?] at h2
  split at h2
  · cases h2
  · exact (Option.some.inj h2).symm

/-! ## Ranked output -/

theorem ranks_of_entries (recs : List Recommendation) (k : Nat)
    (h : ∀ (j : Nat) (r : Recommendation), recs[j]? = some r → r.Rank = k + j + 1) :
    recs.map Recommendation.Rank = List.range' (k + 1) recs.length := by
  induction recs generalizing k with
  | nil => rfl
  | cons r rest ih =>
    have h0 : r.Rank = k + 1 := by simpa using h 0 r (by simp)
    have hrest : ∀ (j : Nat) (r0 : Recommendation), rest[j]? = some r0 →
        r0.Rank = (k + 1) + j + 1 := by
      intro j r0 hj
      have := h (j + 1) r0 (by simpa using hj)
      omega
    simp only [List.map_cons, List.length_cons, List.range'_succ, h0, ih (k + 1) hrest]

theorem pairwise_of_getElem? {α β : Type} (R : β → β → Prop) (S : α → α → Prop)
    (l : List α) (m : List β) (hlen : m.length = l.length)
    (hl : l.Pairwise S)
    (h : ∀ (i j : Nat) (a b : α) (x y : β), l[i]? = some a → l[j]? = some b →
      m[i]? = some x → m[j]? = some y → S a b → R x y) :
    m.Pairwise R := by
  rw [List.pairwise_iff_getElem]
  intro i j hi hj hij
  have hi2 : i < l.length := hlen ▸ hi
  have hj2 : j < l.length := hlen ▸ hj
  exact h i j l[i] l[j] m[i] m[j] (List.getElem?_eq_getElem hi2)
    (List.getElem?_eq_getElem hj2) (List.getElem?_eq_getElem hi) (List.getElem?_eq_getElem hj)
    (List.pairwise_iff_getElem.1 hl i j hi2 hj2 hij)

/-! ## Pagination -/

theorem getAllFollowsLoop_of_chain (env : Env) (handle : GoString)
    (pages : List (Option FollowsResponse)) (fuel n : Nat) (cursor : GoString)
    (acc : List Follow) (hc : IsPageChain env handle n cursor pages)
    (hf : pages.length ≤ fuel) :
    getAllFollowsLoop env handle fuel n cursor acc =
      some (acc ++ pageEdges pages, n + pages.length) := by
  induction pages generalizing fuel n cursor acc with
  | nil => exact absurd hc (by simp [IsPageChain])
  | cons p rest ih =>
    cases fuel with
    | zero => simp at hf
    | succ fuel =>
      cases rest with
      | nil =>
        obtain ⟨hp, hlast⟩ := hc
        unfold getAllFollowsLoop
        rw [hp]
        cases p with
        | none => simp [pageEdges]
        | some r => simp [pageEdges, hlast r rfl]
      | cons q ps =>
        obtain ⟨r, hp, hfetch, hcur, hrest⟩ := hc
        subst hp
        unfold getAllFollowsLoop
        rw [hfetch]
        simp only [hcur, if_false]
        rw [ih fuel (n + 1) r.Cursor (acc ++ r.Follows) hrest
          (by simp only [List.length_cons] at hf ⊢; omega)]
        simp only [pageEdges, List.filterMap_cons, id, List.flatMap_cons, List.append_assoc,
          List.length_cons]
        congr 2
        omega

theorem getAllFollowsLoop_error_nil (env : Env) (fuel : Nat) (handle : GoString) (n : Nat)
    (r : (List Follow × Option GoString) × Nat) (h : getAllFollows env fuel handle n = some r) :
    r.1.2 = none := by
  unfold getAllFollows at h
  cases hl : getAllFollowsLoop env handle fuel n [] [] with
  | none => rw [hl] at h; cases h
  | some x =>
    rw [hl] at h
    simp only [Option.map_some', Option.some.injEq] at h
    rw [← h]

/-! ## The program -/

theorem fetchHops_fst (env : Env) (fuel : Nat) (fs : List Follow) (n : Nat)
    (r : List (Follow × List Follow) × Nat) (h : fetchHops env fuel fs n = some r) :
    r.1.map Prod.fst = fs := by
  induction fs generalizing n r with
  | nil =>
    simp only [fetchHops, Option.some.injEq] at h
    rw [← h]; rfl
  | cons f rest ih =>
    unfold fetchHops at h
    cases hg : getAllFollows env fuel f.Handle n with
    | none => rw [hg] at h; cases h
    | some g =>
      rw [hg] at h
      simp only at h
      cases hr : fetchHops env fuel rest g.2 with
      | none => rw [hr] at h; cases h
      | some r0 =>
        rw [hr] at h
        simp only [Option.map_some', Option.some.injEq] at h
        rw [← h]
        simp [ih g.2 r0 hr]

/-- The loop of `main` computes the aggregation of the lists it fetches. -/
theorem secondHopLoop_eq (env : Env) (fuel : Nat) (myDID : GoString)
    (followed : GoMap GoString Bool) (fs : List Follow) (n : Nat) (st : AggState) :
    secondHopLoop env fuel myDID followed fs n st =
      (fetchHops env fuel fs n).map (fun h => (aggLoop myDID followed h.1 st, h.2)) := by
  induction fs generalizing n st with
  | nil => rfl
  | cons f rest ih =>
    unfold secondHopLoop fetchHops
    cases hg : getAllFollows env fuel f.Handle n with
    | none => rfl
    | some g =>
      simp only
      rw [ih]
      cases fetchHops env fuel rest g.2 with
      | none => rfl
      | some r0 => rfl

/-- The recommendations are the enrichment of the first 30 sorted candidates. -/
theorem recommend_eq (env : Env) (srt : (KV → KV → Bool) → List KV → List KV)
    (myDID : GoString) (hops : List (Follow × List Follow)) (visit : List (GoString × Nat))
    (n : Nat) :
    recommend env srt myDID hops visit n =
      enrich env (aggregate myDID hops).info n ((srt byCountDesc (collect visit)).take 30) := by
  unfold recommend
  rw [rankTop_eq_some]

/-- When `main` writes an output, its recommendations are those of `recommend` for the
origin's identifier and the fetched lists of the accounts of the first-hop list. -/
theorem main_eq_recommend (env : Env) (fuel : Nat)
    (srt : (KV → KV → Bool) → List KV → List KV)
    (order : List (GoString × Nat) → List (GoString × Nat)) (args : List GoString)
    (out : Output) (h : main env fuel srt order args = some (.ok out)) :
    ∃ (myDID : GoString) (hops : List (Follow × List Follow)) (n : Nat),
      hops ≠ [] ∧
      recommend env srt myDID hops (order (aggregate myDID hops).counts.entries) n =
        some out.Recommendations := by
  unfold main at h
  split at h
  · rename_i a0 arg
    simp only at h
    split at h
    · cases h
    · rename_i profile hprof
      split at h
      · cases h
      · rename_i r hr
        split at h
        · cases h
        · rename_i hne
          rw [secondHopLoop_eq] at h
          cases hf : fetchHops env fuel r.1.1 r.2 with
          | none => rw [hf] at h; cases h
          | some hp =>
            rw [hf] at h
            simp only [Option.map_some'] at h
            have hfst := fetchHops_fst env fuel _ _ hp hf
            refine ⟨profile.DID, hp.1, hp.2, ?_, ?_⟩
            · intro hnil
              apply hne
              rw [← hfst, hnil]
              simp
            · rw [rankTop_eq_some] at h
              simp only at h
              rw [recommend_eq]
              unfold aggregate
              rw [hfst]
              cases he : enrich env (aggLoop profile.DID (followedDIDs r.1.1) hp.1
                  AggState.init).info hp.2 ((srt byCountDesc (collect (order
                    (aggLoop profile.DID (followedDIDs r.1.1) hp.1
                      AggState.init).counts.entries))).take 30) with
              | none => rw [he] at h; cases h
              | some recs =>
                rw [he] at h
                simp only [Option.map_some', Option.some.injEq, Except.ok.injEq] at h
                rw [← h]
  · cases h

/-- The whole program on the scenario of the specification: X is ranked first with support
count 2, then Y and Z with support count 1. -/
theorem main_scenario :
    (main graphEnv 1 insertionSortLessFunc id [ascii "bsky-orbit", ascii "@o.test"]).map
      (fun res => res.map (fun out => (out.User, out.Recommendations.map
        (fun r => (r.Rank, r.Handle, r.DisplayName, r.FollowersCount, r.FollowedBy))))) =
    some (.ok (ascii "o.test",
      [(1, ascii "x.test", ascii "Name", 1500, 2),
       (2, ascii "y.test", ascii "Name", 1500, 1),
       (3, ascii "z.test", ascii "Name", 1500, 1)])) := by
  rfl

/-! ## Support counts of ranked candidates -/

/-- Where the reported support count is the glossary's: for a ranked candidate whose
identifier occurs at most once in every fetched follow list, and whose supporting
first-hop accounts have pairwise distinct identifiers, the reported followedByCount is
the number of distinct first-hop accounts whose fetched list contains it. -/
theorem support_count_eq_distinctSupporters (env : Env)
    (srt : (KV → KV → Bool) → List KV → List KV) (myDID : GoString)
    (hops : List (Follow × List Follow)) (visit : List (GoString × Nat)) (n : Nat)
    (hs : SortSliceSpec srt) (hv : visit.Perm (aggregate myDID hops).counts.entries) :
    ∃ ranked recs, rankTop srt (collect visit) = some ranked ∧
      recommend env srt myDID hops visit n = some recs ∧
      recs.length = ranked.length ∧
      ∀ (j : Nat) (kv : KV), ranked[j]? = some kv →
        (∀ hop ∈ hops, occurrences kv.DID hop.2 ≤ 1) →
        ((hops.filter (fun h => h.2.any (fun f => decide (f.DID = kv.DID)))).map
          (fun h => h.1.DID)).Nodup →
        ∃ r, recs[j]? = some r ∧ r.FollowedBy = kv.Count ∧
          r.FollowedBy = distinctSupporters kv.DID hops := by
  obtain ⟨recs, h1, h2, h3⟩ :=
    enrich_spec env (aggregate myDID hops).info n ((srt byCountDesc (collect visit)).take 30)
  refine ⟨_, recs, rankTop_eq_some srt (collect visit), ?_, h2, ?_⟩
  · rw [recommend_eq]; exact h1
  intro j kv hj hl hf
  obtain ⟨r, hr, hok⟩ := h3 j kv hj
  have hmem : kv ∈ (srt byCountDesc (collect visit)).take 30 := List.getElem?_mem hj
  have hc := ranked_count_eq myDID hops srt visit hs hv hmem
  rw [occurrences_eq_distinctSupporters _ _ hl hf] at hc
  exact ⟨r, hr, hok.2.2.1, hok.2.2.1.trans hc⟩

/-- The scenario of the specification, for any accounts with distinct identifiers: when
the origin follows A and B, A follows X and Y, and B follows X and Z, the counts are
X = 2, Y = 1, Z = 1. -/
theorem scenario_support_counts (o : GoString) (a b x y z : Follow)
    (hxy : x.DID ≠ y.DID) (hxz : x.DID ≠ z.DID) (hyz : y.DID ≠ z.DID)
    (hxo : x.DID ≠ o) (hyo : y.DID ≠ o) (hzo : z.DID ≠ o)
    (hxa : x.DID ≠ a.DID) (hya : y.DID ≠ a.DID) (hza : z.DID ≠ a.DID)
    (hxb : x.DID ≠ b.DID) (hyb : y.DID ≠ b.DID) (hzb : z.DID ≠ b.DID) :
    (aggregate o [(a, [x, y]), (b, [x, z])]).counts.find? x.DID = some 2 ∧
    (aggregate o [(a, [x, y]), (b, [x, z])]).counts.find? y.DID = some 1 ∧
    (aggregate o [(a, [x, y]), (b, [x, z])]).counts.find? z.DID = some 1 := by
  simp only [aggregate_counts_find?, exclusionSet, traversal, occurrences]
  refine ⟨?_, ?_, ?_⟩
  · simp [List.countP_cons, hxo, hxa, hxb, hxy.symm, hxz.symm]
  · simp [List.countP_cons, hyo, hya, hyb, hxy, hyz.symm]
  · simp [List.countP_cons, hzo, hza, hzb, hxz, hyz]

/-- The reported support counts at the scenario of the specification, and at a variant in
which A's list names the already followed B twice: the counts are the numbers of
distinct supporting first-hop accounts. -/
theorem support_count_examples :
    (recommend offlineEnv insertionSortLessFunc didO hopsScenario
        (aggregate didO hopsScenario).counts.entries 0).map
        (fun recs => recs.map (fun r => (r.Handle, r.FollowedBy))) =
      some [(accX.Handle, 2), (accY.Handle, 1), (accZ.Handle, 1)] ∧
    distinctSupporters accX.DID hopsScenario = 2 ∧
    distinctSupporters accY.DID hopsScenario = 1 ∧
    distinctSupporters accZ.DID hopsScenario = 1 ∧
    (aggregate didO [(accA, [accB, accB, accX]), (accB, [accX, accZ])]).counts.entries =
      [(accX.DID, 2), (accZ.DID, 1)] ∧
    distinctSupporters accX.DID [(accA, [accB, accB, accX]), (accB, [accX, accZ])] = 2 ∧
    distinctSupporters accZ.DID [(accA, [accB, accB, accX]), (accB, [accX, accZ])] = 1 := by
  decide

/-! ## The claims -/

/-- C1. No identifier counted by the aggregation loop, and no candidate of the ranked
list built from the counts, equals the origin's identifier or the identifier of an
account of the origin's first-hop follow list. -/
theorem C1_exclusion_set_never_ranked (myDID : GoString) (hops : List (Follow × List Follow))
    (srt : (KV → KV → Bool) → List KV → List KV) (visit : List (GoString × Nat))
    (hs : SortSliceSpec srt) (hv : visit.Perm (aggregate myDID hops).counts.entries) :
    (∀ d ∈ (aggregate myDID hops).counts.keys,
        d ≠ myDID ∧ ∀ hop ∈ hops, d ≠ hop.1.DID) ∧
    (∃ ranked, rankTop srt (collect visit) = some ranked ∧
      ∀ kv ∈ ranked, kv.DID ≠ myDID ∧ ∀ hop ∈ hops, kv.DID ≠ hop.1.DID) := by
  have key : ∀ d ∈ (aggregate myDID hops).counts.keys,
      d ≠ myDID ∧ ∀ hop ∈ hops, d ≠ hop.1.DID := by
    intro d hd
    rw [GoMap.mem_keys_iff, aggregate_counts_find?] at hd
    split at hd
    · simp at hd
    · rename_i hx
      rw [not_or] at hx
      have hx1 := hx.1
      simp only [exclusionSet, List.mem_cons, List.mem_map, not_or, not_exists, not_and] at hx1
      refine ⟨hx1.1, ?_⟩
      intro hop hhop e
      exact hx1.2 hop.1 ⟨hop, hhop, rfl⟩ e.symm
  refine ⟨key, _, rankTop_eq_some srt (collect visit), ?_⟩
  intro kv hkv
  have h1 := collect_mem (take30_subset hs _ hkv)
  have h2 : kv.DID ∈ (aggregate myDID hops).counts.keys :=
    List.mem_map.2 ⟨(kv.DID, kv.Count), hv.subset h1, rfl⟩
  exact key _ h2

/-- C1 at the scenario of the specification with A also following B and the origin:
only X and Z are ranked. -/
theorem C1_exclusion_set_never_ranked_witness :
    rankTop insertionSortLessFunc (collect (aggregate didO hopsBack).counts.entries) =
      some [⟨accX.DID, 2⟩, ⟨accZ.DID, 1⟩] ∧
    (∀ d ∈ (aggregate didO hopsBack).counts.keys,
        d ≠ didO ∧ ∀ hop ∈ hopsBack, d ≠ hop.1.DID) ∧
    (∃ ranked, rankTop insertionSortLessFunc
        (collect (aggregate didO hopsBack).counts.entries) = some ranked ∧
      ∀ kv ∈ ranked, kv.DID ≠ didO ∧ ∀ hop ∈ hopsBack, kv.DID ≠ hop.1.DID) :=
  ⟨by decide, C1_exclusion_set_never_ranked didO hopsBack insertionSortLessFunc _
    insertionSortLessFunc_spec (List.Perm.refl _)⟩

/-- C2. The code at an input where it breaks the claim: the origin `o.test` follows A
only and the follow list returned for A names X twice.  The loop of lines 189-196 adds
one to the count of X for each of the two edges, so `main` reports X with support count
(followedByCount) 2, while the number of distinct first-hop accounts whose fetched
follow list contains X is 1. -/
theorem C2_repeated_edge_counted_twice :
    (main repeatEnv 1 insertionSortLessFunc id [ascii "bsky-orbit", ascii "o.test"]).map
        (fun res => res.map (fun out =>
          out.Recommendations.map (fun r => (r.Handle, r.FollowedBy)))) =
      some (.ok [(accX.Handle, 2)]) ∧
    fetchHops repeatEnv 1 [accA] 2 = some (hopsRepeated, 3) ∧
    (aggregate didO hopsRepeated).counts.entries = [(accX.DID, 2)] ∧
    (recommend offlineEnv insertionSortLessFunc didO hopsRepeated
        (aggregate didO hopsRepeated).counts.entries 0).map
        (fun recs => recs.map (fun r => (r.Handle, r.FollowedBy))) =
      some [(accX.Handle, 2)] ∧
    distinctSupporters accX.DID hopsRepeated = 1 :=
  ⟨rfl, by decide, by decide, by decide, by decide⟩

/-- C3. The recommendations list carries ranks exactly 1, 2, ..., k in list order with
k at most 30, and its support counts (followedByCount) do not increase along the
list. -/
theorem C3_ranks_contiguous_counts_nonincreasing (env : Env)
    (srt : (KV → KV → Bool) → List KV → List KV) (myDID : GoString)
    (hops : List (Follow × List Follow)) (visit : List (GoString × Nat)) (n : Nat)
    (hs : SortSliceSpec srt) :
    ∃ recs, recommend env srt myDID hops visit n = some recs ∧
      recs.map Recommendation.Rank = List.range' 1 recs.length ∧
      recs.length ≤ 30 ∧
      recs.Pairwise (fun a b => b.FollowedBy ≤ a.FollowedBy) := by
  obtain ⟨recs, h1, h2, h3⟩ :=
    enrich_spec env (aggregate myDID hops).info n ((srt byCountDesc (collect visit)).take 30)
  refine ⟨recs, by rw [recommend_eq]; exact h1, ?_, ?_, ?_⟩
  · apply ranks_of_entries recs 0
    intro j r hj
    have hlt : j < ((srt byCountDesc (collect visit)).take 30).length := by
      rw [← h2]; exact (List.getElem?_eq_some.1 hj).1
    obtain ⟨r0, hr0, hok⟩ := h3 j _ (List.getElem?_eq_getElem hlt)
    rw [hj] at hr0
    cases hr0
    rw [hok.1]; omega
  · rw [h2, take30_length hs]
    exact Nat.min_le_left _ _
  · apply pairwise_of_getElem? _ _ _ recs h2 (take30_sorted hs (collect visit))
    intro i j a b x y ha hb hx hy hab
    obtain ⟨r1, hr1, hok1⟩ := h3 i a ha
    obtain ⟨r2, hr2, hok2⟩ := h3 j b hb
    rw [hx] at hr1
    rw [hy] at hr2
    cases hr1
    cases hr2
    rw [hok1.2.2.1, hok2.2.2.1]
    exact hab

/-- C3 at the scenario of the specification. -/
theorem C3_ranks_contiguous_counts_nonincreasing_witness :
    (recommend offlineEnv insertionSortLessFunc didO hopsScenario
        (aggregate didO hopsScenario).counts.entries 0).map
        (fun recs => recs.map (fun r => (r.Rank, r.FollowedBy))) =
      some [(1, 2), (2, 1), (3, 1)] ∧
    ∃ recs, recommend offlineEnv insertionSortLessFunc didO hopsScenario
        (aggregate didO hopsScenario).counts.entries 0 = some recs ∧
      recs.map Recommendation.Rank = List.range' 1 recs.length ∧
      recs.length ≤ 30 ∧
      recs.Pairwise (fun a b => b.FollowedBy ≤ a.FollowedBy) :=
  ⟨by decide, C3_ranks_contiguous_counts_nonincreasing offlineEnv insertionSortLessFunc didO
    hopsScenario _ 0 insertionSortLessFunc_spec⟩

/-- C4. For a candidate set with n candidates, sorting and truncating does not fail and
yields exactly min(30, n) entries (none for the empty set); the entries have pairwise
distinct identifiers, each is a candidate of the set with its own support count, and
every candidate left out has a support count no greater than that of every entry
kept. -/
theorem C4_top_thirty_of_candidates (counts : GoMap GoString Nat)
    (srt : (KV → KV → Bool) → List KV → List KV) (visit : List (GoString × Nat))
    (hk : counts.keys.Nodup) (hs : SortSliceSpec srt) (hv : visit.Perm counts.entries) :
    ∃ ranked, rankTop srt (collect visit) = some ranked ∧
      ranked.length = min 30 counts.entries.length ∧
      (counts.entries = [] → ranked = []) ∧
      (ranked.map KV.DID).Nodup ∧
      (∀ kv ∈ ranked, counts.find? kv.DID = some kv.Count) ∧
      (∀ e ∈ counts.entries, KV.mk e.1 e.2 ∉ ranked → ∀ kv ∈ ranked, e.2 ≤ kv.Count) := by
  have hlen : ((srt byCountDesc (collect visit)).take 30).length =
      min 30 counts.entries.length := by
    rw [take30_length hs, collect, List.length_map, hv.length_eq]
  have hnd : ((srt byCountDesc (collect visit)).map KV.DID).Nodup := by
    rw [((hs.perm (collect visit)).map KV.DID).nodup_iff, collect_map_DID,
      (hv.map Prod.fst).nodup_iff]
    exact hk
  refine ⟨_, rankTop_eq_some srt (collect visit), hlen, ?_, ?_, ?_, ?_⟩
  · intro he
    apply List.eq_nil_of_length_eq_zero
    rw [hlen, he]; rfl
  · exact hnd.sublist ((List.take_sublist 30 _).map KV.DID)
  · intro kv hkv
    exact findEntry_of_mem hk (hv.subset (collect_mem (take30_subset hs _ hkv)))
  · intro e he hnot kv hkv
    have hmem : KV.mk e.1 e.2 ∈ srt byCountDesc (collect visit) := by
      apply (hs.perm (collect visit)).mem_iff.2
      exact List.mem_map.2 ⟨e, hv.mem_iff.2 he, rfl⟩
    rw [← List.take_append_drop 30 (srt byCountDesc (collect visit)), List.mem_append] at hmem
    have hdrop := hmem.resolve_left hnot
    have hsorted := hs.sorted (collect visit)
    rw [← List.take_append_drop 30 (srt byCountDesc (collect visit)),
      List.pairwise_append] at hsorted
    exact byCountDesc_eq_false.1 (hsorted.2.2 kv hkv _ hdrop)

/-- C4 at a candidate set of 31 candidates with support counts 0 to 30: the 30 entries
kept are those with counts 30 down to 1, the candidate with count 0 is left out. -/
theorem C4_top_thirty_of_candidates_witness :
    (rankTop insertionSortLessFunc (collect manyCounts.entries)).map
        (fun ranked => ranked.map KV.Count) = some (List.range' 1 30).reverse ∧
    rankTop insertionSortLessFunc (collect (GoMap.empty : GoMap GoString Nat).entries) =
      some [] ∧
    ∃ ranked, rankTop insertionSortLessFunc (collect manyCounts.entries) = some ranked ∧
      ranked.length = min 30 manyCounts.entries.length ∧
      (manyCounts.entries = [] → ranked = []) ∧
      (ranked.map KV.DID).Nodup ∧
      (∀ kv ∈ ranked, manyCounts.find? kv.DID = some kv.Count) ∧
      (∀ e ∈ manyCounts.entries, KV.mk e.1 e.2 ∉ ranked →
        ∀ kv ∈ ranked, e.2 ≤ kv.Count) :=
  ⟨by decide, by decide,
    C4_top_thirty_of_candidates manyCounts insertionSortLessFunc manyCounts.entries
      (by decide) insertionSortLessFunc_spec (List.Perm.refl _)⟩

/-- C5. For every finite chain of page responses for an account, each page requested
with the cursor returned by the page before it and the first without a cursor,
`getAllFollows` returns the edges of the successfully fetched and decoded pages
concatenated in request order; it stops after the first page with an empty next-cursor
or at the first page whose fetch or decoding fails, keeping the edges collected before,
and the error it returns is nil.  For three pages of 100, 100 and 50 edges the result is
those 250 edges in page order. -/
theorem C5_getAllFollows_concatenates_pages (env : Env) (handle : GoString)
    (pages : List (Option FollowsResponse)) (fuel n : Nat)
    (hc : IsPageChain env handle n [] pages) (hf : pages.length ≤ fuel) :
    getAllFollows env fuel handle n = some ((pageEdges pages, none), n + pages.length) ∧
    (∀ (fuel2 n2 : Nat) (handle2 : GoString) (r : (List Follow × Option GoString) × Nat),
      getAllFollows env fuel2 handle2 n2 = some r → r.1.2 = none) ∧
    (∀ p1 p2 p3 : FollowsResponse, pages = [some p1, some p2, some p3] →
      p1.Follows.length = 100 → p2.Follows.length = 100 → p3.Follows.length = 50 →
      getAllFollows env fuel handle n =
        some ((p1.Follows ++ p2.Follows ++ p3.Follows, none), n + 3) ∧
      (p1.Follows ++ p2.Follows ++ p3.Follows).length = 250) := by
  have main : getAllFollows env fuel handle n =
      some ((pageEdges pages, none), n + pages.length) := by
    unfold getAllFollows
    rw [getAllFollowsLoop_of_chain env handle pages fuel n [] [] hc hf]
    rfl
  refine ⟨main, fun fuel2 n2 handle2 r hr => getAllFollowsLoop_error_nil env fuel2 handle2 n2 r hr,
    ?_⟩
  intro p1 p2 p3 hp h1 h2 h3
  refine ⟨?_, by simp [h1, h2, h3]⟩
  rw [main, hp]
  simp [pageEdges]

/-- C5 at a follow source of three pages of 100, 100 and 50 edges with chained cursors:
the 250 edges are returned in page order after three API calls. -/
theorem C5_getAllFollows_concatenates_pages_witness :
    getAllFollows pagedEnv 3 accA.Handle 0 =
      some ((List.replicate 100 accX ++ List.replicate 100 accY ++ List.replicate 50 accZ,
        none), 3) ∧
    (List.replicate 100 accX ++ List.replicate 100 accY ++ List.replicate 50 accZ).length
      = 250 :=
  ((C5_getAllFollows_concatenates_pages pagedEnv accA.Handle
      [some page1, some page2, some page3] 3 0
      ⟨page1, rfl, by decide, by decide, page2, rfl, by decide, by decide, by decide,
        by decide⟩
      (by decide)).2.2 page1 page2 page3 rfl (by decide) (by decide) (by decide))

/-- C6. Every identifier that has a support count after aggregation has a stored
snapshot, and the snapshot is the first record with that identifier in traversal order
(first-hop accounts in the order received, edges in the order of each fetched list).
Once a snapshot is stored for an identifier, no later edge changes it, whatever its
handle, display name or description. -/
theorem C6_first_snapshot_wins (myDID : GoString) (hops : List (Follow × List Follow)) :
    (∀ d ∈ (aggregate myDID hops).counts.keys,
      ∃ f, (aggregate myDID hops).info.find? d = some f ∧
        (traversal hops).find? (fun g => decide (g.DID = d)) = some f) ∧
    (∀ (followed : GoMap GoString Bool) (st : AggState) (d : GoString) (f : Follow)
        (later : List Follow), st.info.find? d = some f →
      (later.foldl (aggStep myDID followed) st).info.find? d = some f) := by
  constructor
  · intro d hd
    rw [GoMap.mem_keys_iff, aggregate_counts_find?] at hd
    split at hd
    · simp at hd
    · rename_i hx
      rw [not_or] at hx
      rw [aggregate_info_find?, if_neg hx.1]
      cases hfind : (traversal hops).find? (fun g => decide (g.DID = d)) with
      | some f => exact ⟨f, rfl, rfl⟩
      | none =>
        exfalso
        apply hx.2
        rw [List.find?_eq_none] at hfind
        unfold occurrences
        rw [List.countP_eq_zero]
        exact hfind
  · intro followed st d f later hst
    rw [info_find?_foldl, hst]
    simp

/-- C6 at the scenario with X renamed before its second sighting: X is counted twice and
its snapshot is the record seen first. -/
theorem C6_first_snapshot_wins_example :
    (aggregate didO hopsRenamed).counts.find? accX.DID = some 2 ∧
    (aggregate didO hopsRenamed).info.find? accX.DID = some accX ∧
    ∀ d ∈ (aggregate didO hopsRenamed).counts.keys,
      ∃ f, (aggregate didO hopsRenamed).info.find? d = some f ∧
        (traversal hopsRenamed).find? (fun g => decide (g.DID = d)) = some f :=
  ⟨by decide, by decide, (C6_first_snapshot_wins didO hopsRenamed).1⟩

/-- C7. Whatever the outcomes of the profile requests, enrichment returns one entry per
ranked candidate, in the same order; the rank, handle, support count and URL of every
entry are the same under any two environments; and an entry whose profile request fails
has empty display name, empty bio and follower count 0.  In particular 30 ranked
candidates give 30 entries. -/
theorem C7_enrichment_keeps_every_candidate (env env2 : Env) (info : GoMap GoString Follow)
    (n n2 : Nat) (sorted : List KV) :
    ∃ recs recs2, enrich env info n sorted = some recs ∧
      enrich env2 info n2 sorted = some recs2 ∧
      recs.length = sorted.length ∧
      (sorted.length = 30 → recs.length = 30) ∧
      recs.map (fun r => (r.Rank, r.Handle, r.FollowedBy, r.URL)) =
        recs2.map (fun r => (r.Rank, r.Handle, r.FollowedBy, r.URL)) ∧
      (∀ (j : Nat) (kv : KV), sorted[j]? = some kv →
        ∃ r, recs[j]? = some r ∧ r.Rank = j + 1 ∧
          r.Handle = (info.getD kv.DID Follow.zero).Handle ∧
          r.FollowedBy = kv.Count ∧
          r.URL = ascii "https://bsky.app/profile/" ++ r.Handle ∧
          ((∃ e, getProfile env (n + j) r.Handle = .error e) →
            r.DisplayName = [] ∧ r.Bio = [] ∧ r.FollowersCount = 0)) := by
  obtain ⟨recs, h1, h2, h3⟩ := enrich_spec env info n sorted
  obtain ⟨recs2, k1, k2, k3⟩ := enrich_spec env2 info n2 sorted
  refine ⟨recs, recs2, h1, k1, h2, fun h => h2.trans h, ?_, ?_⟩
  · apply List.ext_getElem?
    intro j
    by_cases hj : j < sorted.length
    · obtain ⟨r, hr, hok⟩ := h3 j _ (List.getElem?_eq_getElem hj)
      obtain ⟨r2, hr2, hok2⟩ := k3 j _ (List.getElem?_eq_getElem hj)
      simp only [List.getElem?_map, hr, hr2, Option.map_some']
      rw [hok.1, hok.2.1, hok.2.2.1, hok.2.2.2.1, hok2.1, hok2.2.1, hok2.2.2.1, hok2.2.2.2.1]
    · have e1 : recs[j]? = none := List.getElem?_eq_none (by omega)
      have e2 : recs2[j]? = none := List.getElem?_eq_none (by omega)
      simp only [List.getElem?_map, e1, e2, Option.map_none']
  · intro j kv hj
    obtain ⟨r, hr, hok⟩ := h3 j kv hj
    refine ⟨r, hr, hok.1, hok.2.1, hok.2.2.1, ?_, ?_⟩
    · rw [hok.2.2.2.1, hok.2.1]
    · rintro ⟨e, he⟩
      have h5 := hok.2.2.2.2
      rw [hok.2.1] at he
      rw [he] at h5
      exact h5

/-- C7 at thirty ranked candidates when the third profile request fails: thirty entries
come out, the third with empty display name and bio and follower count 0, the fourth
with the fetched name, the normalised description and the fetched follower count. -/
theorem C7_enrichment_keeps_every_candidate_example :
    (enrich flakyEnv info30 0 sorted30).map List.length = some 30 ∧
    (enrich flakyEnv info30 0 sorted30).map
        (fun recs => (recs.drop 2).take 2) =
      some [⟨3, [2], [], [], 0, 28, ascii "https://bsky.app/profile/" ++ [2]⟩,
            ⟨4, [3], ascii "Name", ascii "two lines", 7, 27,
              ascii "https://bsky.app/profile/" ++ [3]⟩] ∧
    (enrich flakyEnv info30 0 sorted30).map
        (fun recs => recs.map (fun r => (r.Rank, r.Handle, r.FollowedBy, r.URL))) =
      (enrich offlineEnv info30 7 sorted30).map
        (fun recs => recs.map (fun r => (r.Rank, r.Handle, r.FollowedBy, r.URL))) := by
  decide

/-- C8, amended. For every candidate set, the ranked top-30 sequence of support counts is
the same whatever order the candidates are enumerated in before sorting; at every rank
whose support count is held by exactly one candidate of the set, the identifier is
the same too; and a candidate ranked under one enumeration order is ranked under
every other, unless its support count is the lowest ranked count and a candidate with
the same count is ranked.  Only candidates with equal support counts can change
places. -/
theorem C8_ranking_determined_up_to_ties (counts : GoMap GoString Nat)
    (srt : (KV → KV → Bool) → List KV → List KV) (visit1 visit2 : List (GoString × Nat))
    (hs : SortSliceSpec srt) (h1 : visit1.Perm counts.entries)
    (h2 : visit2.Perm counts.entries) :
    ∃ ranked1 ranked2, rankTop srt (collect visit1) = some ranked1 ∧
      rankTop srt (collect visit2) = some ranked2 ∧
      ranked1.map KV.Count = ranked2.map KV.Count ∧
      (∀ (j : Nat) (kv1 kv2 : KV), ranked1[j]? = some kv1 → ranked2[j]? = some kv2 →
        (∀ e ∈ counts.entries, e.2 = kv1.Count → e.1 = kv1.DID) → kv1.DID = kv2.DID) ∧
      (∀ kv ∈ ranked1, kv ∈ ranked2 ∨
        ((∃ other ∈ ranked2, other.Count = kv.Count) ∧
          ∀ other ∈ ranked2, kv.Count ≤ other.Count)) := by
  have hp : (srt byCountDesc (collect visit1)).Perm (srt byCountDesc (collect visit2)) :=
    ((hs.perm _).trans ((h1.trans h2.symm).map _)).trans (hs.perm _).symm
  have hsort : ∀ v, ((srt byCountDesc (collect v)).map KV.Count).Sorted (· ≥ ·) := by
    intro v
    apply List.pairwise_map.2
    exact (hs.sorted (collect v)).imp (fun hab => byCountDesc_eq_false.1 hab)
  have hcount : ((srt byCountDesc (collect visit1)).take 30).map KV.Count =
      ((srt byCountDesc (collect visit2)).take 30).map KV.Count := by
    rw [List.map_take, List.map_take,
      List.eq_of_perm_of_sorted (hp.map KV.Count) (hsort visit1) (hsort visit2)]
  have hsame : ∀ (j : Nat) (kv1 kv2 : KV),
      ((srt byCountDesc (collect visit1)).take 30)[j]? = some kv1 →
      ((srt byCountDesc (collect visit2)).take 30)[j]? = some kv2 →
      kv2.Count = kv1.Count := by
    intro j kv1 kv2 hj1 hj2
    have e1 : (((srt byCountDesc (collect visit1)).take 30).map KV.Count)[j]? =
        some kv1.Count := by rw [List.getElem?_map, hj1]; rfl
    have e2 : (((srt byCountDesc (collect visit2)).take 30).map KV.Count)[j]? =
        some kv2.Count := by rw [List.getElem?_map, hj2]; rfl
    rw [hcount, e2] at e1
    exact Option.some.inj e1
  refine ⟨_, _, rankTop_eq_some srt (collect visit1), rankTop_eq_some srt (collect visit2),
    hcount, ?_, ?_⟩
  · intro j kv1 kv2 hj1 hj2 huniq
    have hc := hsame j kv1 kv2 hj1 hj2
    have hmem : (kv2.DID, kv2.Count) ∈ counts.entries :=
      h2.subset (collect_mem (take30_subset hs _ (List.getElem?_mem hj2)))
    exact (huniq _ hmem hc).symm
  · intro kv hkv
    have hin2 : kv ∈ srt byCountDesc (collect visit2) :=
      hp.subset (List.mem_of_mem_take hkv)
    rw [← List.take_append_drop 30 (srt byCountDesc (collect visit2)), List.mem_append] at hin2
    rcases hin2 with hk | hd
    · exact Or.inl hk
    · right
      constructor
      · obtain ⟨j, hj⟩ := List.mem_iff_getElem?.1 hkv
        have hlen : ((srt byCountDesc (collect visit1)).take 30).length =
            ((srt byCountDesc (collect visit2)).take 30).length := by
          have := congrArg List.length hcount
          simpa using this
        have hjlt : j < ((srt byCountDesc (collect visit2)).take 30).length := by
          rw [← hlen]; exact (List.getElem?_eq_some.1 hj).1
        exact ⟨_, List.getElem_mem hjlt,
          hsame j kv _ hj (List.getElem?_eq_getElem hjlt)⟩
      · intro other hother
        have hsorted := hs.sorted (collect visit2)
        rw [← List.take_append_drop 30 (srt byCountDesc (collect visit2)),
          List.pairwise_append] at hsorted
        exact byCountDesc_eq_false.1 (hsorted.2.2 other hother kv hd)

/-- C8 at the scenario's candidate set X:2, Y:1, Z:1, visited in two different orders: the
ranked support counts are 2, 1, 1 both times, X is the only candidate with count 2, and
so X holds rank 1 both times. -/
theorem C8_ranking_determined_up_to_ties_witness :
    (rankTop insertionSortLessFunc (collect visitXYZ)).map
        (fun ranked => ranked.map KV.Count) = some [2, 1, 1] ∧
    (rankTop insertionSortLessFunc (collect visitXZY)).map
        (fun ranked => ranked.map KV.Count) = some [2, 1, 1] ∧
    (rankTop insertionSortLessFunc (collect visitXYZ)).map
        (fun ranked => (ranked.take 1).map KV.DID) = some [accX.DID] ∧
    (rankTop insertionSortLessFunc (collect visitXZY)).map
        (fun ranked => (ranked.take 1).map KV.DID) = some [accX.DID] ∧
    (∀ e ∈ (aggregate didO hopsScenario).counts.entries, e.2 = 2 → e.1 = accX.DID) ∧
    ∃ ranked1 ranked2, rankTop insertionSortLessFunc (collect visitXYZ) = some ranked1 ∧
      rankTop insertionSortLessFunc (collect visitXZY) = some ranked2 ∧
      ranked1.map KV.Count = ranked2.map KV.Count ∧
      (∀ (j : Nat) (kv1 kv2 : KV), ranked1[j]? = some kv1 → ranked2[j]? = some kv2 →
        (∀ e ∈ (aggregate didO hopsScenario).counts.entries,
          e.2 = kv1.Count → e.1 = kv1.DID) → kv1.DID = kv2.DID) ∧
      (∀ kv ∈ ranked1, kv ∈ ranked2 ∨
        ((∃ other ∈ ranked2, other.Count = kv.Count) ∧
          ∀ other ∈ ranked2, kv.Count ≤ other.Count)) :=
  ⟨by decide, by decide, by decide, by decide, by decide,
    C8_ranking_determined_up_to_ties (aggregate didO hopsScenario).counts
      insertionSortLessFunc visitXYZ visitXZY insertionSortLessFunc_spec
      (by decide) (by decide)⟩

/-- C8 fails as stated.  The scenario's candidate set is X with count 2 and Y, Z with
count 1; visited as X, Y, Z it is ranked X, Y, Z, and visited as X, Z, Y it is ranked
X, Z, Y.  Of 31 candidates that all have count 1, the first 30 visited are ranked, so the
candidate visited last is left out: candidate 30 in one order, candidate 0 in the
reverse order.  Every enumeration used here is already in sorted order: the library's
insertion sort (slices of at most twelve elements) and its pattern-defeating quicksort
(longer slices, Go 1.19 and later) both leave such a slice unchanged. -/
theorem C8_counterexample_tied_candidates :
    visitXYZ.Perm (aggregate didO hopsScenario).counts.entries ∧
    visitXZY.Perm (aggregate didO hopsScenario).counts.entries ∧
    (rankTop insertionSortLessFunc (collect visitXYZ)).map
        (fun ranked => ranked.map KV.DID) = some [accX.DID, accY.DID, accZ.DID] ∧
    (rankTop insertionSortLessFunc (collect visitXZY)).map
        (fun ranked => ranked.map KV.DID) = some [accX.DID, accZ.DID, accY.DID] ∧
    (rankTop insertionSortLessFunc (collect visitXYZ)).map
        (fun ranked => ranked.map KV.DID) ≠
      (rankTop insertionSortLessFunc (collect visitXZY)).map
        (fun ranked => ranked.map KV.DID) ∧
    (rankTop insertionSortLessFunc (collect tiedCounts.entries)).map
        (fun ranked => ranked.map KV.DID) =
      some ((List.range 30).map (fun i => [Fin.ofNat i])) ∧
    (rankTop insertionSortLessFunc (collect tiedCounts.entries.reverse)).map
        (fun ranked => ranked.map KV.DID) =
      some ((List.range' 1 30).reverse.map (fun i => [Fin.ofNat i])) := by
  decide

/-- C9. For every string and every `max` of at least 3, `truncate` returns a result of at
most `max` bytes, hence of at most `max` characters however the bytes are split into
non-empty characters.  With `t` the string after replacing every line feed by a space
and trimming the surrounding white space, the result is `t` when `t` has at most `max`
bytes and otherwise the first `max - 3` bytes of `t` followed by three dots, of length
exactly `max`.  The result contains no line feed.  Trimming removes
a sequence of white-space runes at each end and leaves no white-space rune there.  The bio of an entry whose profile
was fetched is `truncate` of the profile's description at 100. -/
theorem C9_truncate_bounded (s : GoString) (max : Int) (h : 3 ≤ max) :
    (∃ r, truncate s max = some r ∧ (r.length : Int) ≤ max ∧
      (∀ chars : List GoString, (∀ c ∈ chars, c ≠ []) → chars.flatten = r →
        (chars.length : Int) ≤ max) ∧
      (((trimSpace (replaceAllByte 0x0A 0x20 s)).length : Int) ≤ max →
        r = trimSpace (replaceAllByte 0x0A 0x20 s)) ∧
      (max < ((trimSpace (replaceAllByte 0x0A 0x20 s)).length : Int) →
        r = (trimSpace (replaceAllByte 0x0A 0x20 s)).take (max - 3).toNat ++ ascii "..." ∧
        (r.length : Int) = max) ∧
      (0x0A : Byte) ∉ r) ∧
    ((∃ lead trail : List GoString, (∀ w ∈ lead, w ∈ spaceRunes) ∧
        (∀ w ∈ trail, w ∈ spaceRunes) ∧
        replaceAllByte 0x0A 0x20 s =
          lead.flatten ++ trimSpace (replaceAllByte 0x0A 0x20 s) ++ trail.flatten) ∧
      (∀ p ∈ spaceRunes,
        (trimSpace (replaceAllByte 0x0A 0x20 s)).take p.length ≠ p) ∧
      (∀ p ∈ spaceRunes,
        (trimSpace (replaceAllByte 0x0A 0x20 s)).reverse.take p.length ≠ p.reverse)) ∧
    (∀ (env : Env) (info : GoMap GoString Follow) (n : Nat) (sorted : List KV),
      ∃ recs, enrich env info n sorted = some recs ∧
        ∀ (j : Nat) (r : Recommendation) (p : Profile), recs[j]? = some r →
          getProfile env (n + j) r.Handle = .ok p →
          truncate p.Description 100 = some r.Bio) := by
  refine ⟨?_, trimSpace_spec _, ?_⟩
  · rw [truncate_eq s max h]
    have hnl := not_mem_trimmed s
    generalize trimSpace (replaceAllByte 0x0A 0x20 s) = t at *
    by_cases hlt : max < (t.length : Int)
    · rw [if_pos hlt]
      have hlen : ((t.take (max - 3).toNat ++ ascii "...").length : Int) = max := by
        rw [List.length_append, List.length_take, length_ascii_dots]
        omega
      refine ⟨_, rfl, le_of_eq hlen, ?_, ?_, ?_, ?_⟩
      · intro chars hc hf
        have := length_le_of_flatten hc
        rw [hf] at this
        omega
      · intro hle; omega
      · intro _; exact ⟨rfl, hlen⟩
      · intro hm
        rcases List.mem_append.1 hm with h1 | h1
        · exact hnl (List.mem_of_mem_take h1)
        · exact not_mem_ascii_dots h1
    · rw [if_neg hlt]
      refine ⟨_, rfl, by omega, ?_, ?_, ?_, hnl⟩
      · intro chars hc hf
        have := length_le_of_flatten hc
        rw [hf] at this
        omega
      · intro _; rfl
      · intro hgt; exact absurd hgt hlt
  · intro env info n sorted
    obtain ⟨recs, h1, h2, h3⟩ := enrich_spec env info n sorted
    refine ⟨recs, h1, ?_⟩
    intro j r p hj hp
    have hlt : j < sorted.length := by
      rw [← h2]; exact (List.getElem?_eq_some.1 hj).1
    obtain ⟨r0, hr0, hok⟩ := h3 j _ (List.getElem?_eq_getElem hlt)
    rw [hj] at hr0
    cases hr0
    have h5 := hok.2.2.2.2
    rw [← hok.2.1, hp] at h5
    exact h5.2.1

/-- C9 at a description with blanks, a no-break space, an em space and line feeds around
two lines of text, and at the smallest admitted bound. -/
theorem C9_truncate_bounded_witness :
    truncate ([0x20, 0xC2, 0xA0] ++ ascii "hello\nworld foo" ++ [0xE2, 0x80, 0x83, 0x0A]) 10 =
      some (ascii "hello w...") ∧
    truncate ([0x20, 0xC2, 0xA0] ++ ascii "hello\nworld foo" ++ [0xE2, 0x80, 0x83, 0x0A]) 15 =
      some (ascii "hello world foo") ∧
    truncate (ascii "abcd") 3 = some (ascii "...") ∧
    ∃ r, truncate ([0x20, 0xC2, 0xA0] ++ ascii "hello\nworld foo" ++ [0xE2, 0x80, 0x83, 0x0A])
        10 = some r ∧ (r.length : Int) ≤ 10 ∧ (0x0A : Byte) ∉ r :=
  ⟨by decide, by decide, by decide,
    (C9_truncate_bounded
      ([0x20, 0xC2, 0xA0] ++ ascii "hello\nworld foo" ++ [0xE2, 0x80, 0x83, 0x0A]) 10
      (by decide)).1.imp (fun _ hr => ⟨hr.1, hr.2.1, hr.2.2.2.2.2⟩)⟩

/-- C10. After aggregation the support count of an identifier outside the exclusion set
is the sum, over the first-hop list, of its numbers of occurrences in the fetched follow
lists.  A first-hop account whose fetch returned no edges can be left out of that sum,
and rearranging the first-hop list leaves every count unchanged. -/
theorem C10_counts_are_occurrence_totals (myDID : GoString)
    (hops : List (Follow × List Follow)) :
    (∀ d, d ≠ myDID → (∀ hop ∈ hops, d ≠ hop.1.DID) →
      (aggregate myDID hops).counts.getD d 0 =
        (hops.map (fun h => occurrences d h.2)).sum) ∧
    (∀ (before after : List (Follow × List Follow)) (failed : Follow) (d : GoString),
      hops = before ++ (failed, []) :: after →
      d ≠ myDID → (∀ hop ∈ hops, d ≠ hop.1.DID) →
      (aggregate myDID hops).counts.getD d 0 =
        ((before ++ after).map (fun h => occurrences d h.2)).sum) ∧
    (∀ hops2 : List (Follow × List Follow), hops2.Perm hops →
      ∀ d, (aggregate myDID hops2).counts.find? d = (aggregate myDID hops).counts.find? d) := by
  have key : ∀ d, d ≠ myDID → (∀ hop ∈ hops, d ≠ hop.1.DID) →
      (aggregate myDID hops).counts.getD d 0 =
        (hops.map (fun h => occurrences d h.2)).sum := by
    intro d h1 h2
    have hx : d ∉ exclusionSet myDID (hops.map Prod.fst) := by
      simp only [exclusionSet, List.mem_cons, List.mem_map, not_or, not_exists, not_and]
      refine ⟨h1, ?_⟩
      rintro f ⟨hop, hhop, rfl⟩ e
      exact h2 hop hhop e.symm
    rw [← occurrences_traversal]
    unfold GoMap.getD
    rw [aggregate_counts_find?]
    by_cases h0 : occurrences d (traversal hops) = 0
    · rw [if_pos (Or.inr h0), h0]; rfl
    · rw [if_neg (by rw [not_or]; exact ⟨hx, h0⟩)]; rfl
  refine ⟨key, ?_, ?_⟩
  · intro before after failed d hh h1 h2
    rw [key d h1 h2, hh]
    simp [occurrences]
  · intro hops2 hp d
    rw [aggregate_counts_find?, aggregate_counts_find?]
    have e1 : occurrences d (traversal hops2) = occurrences d (traversal hops) := by
      rw [occurrences_traversal, occurrences_traversal]
      exact (hp.map _).sum_eq
    have e2 : d ∈ exclusionSet myDID (hops2.map Prod.fst) ↔
        d ∈ exclusionSet myDID (hops.map Prod.fst) := by
      simp only [exclusionSet, List.mem_cons]
      exact or_congr Iff.rfl ((hp.map _).map _).mem_iff
    rw [e1]
    exact if_congr (or_congr e2 Iff.rfl) rfl rfl

/-- C10 at the scenario with a failed fetch between A and B: the counts are those of the
scenario, also when B is visited before A. -/
theorem C10_counts_are_occurrence_totals_example :
    (aggregate didO hopsFailed).counts = (aggregate didO hopsScenario).counts ∧
    (aggregate didO hopsFailed).counts.entries =
      [(accX.DID, 2), (accY.DID, 1), (accZ.DID, 1)] ∧
    (aggregate didO hopsFailed.reverse).counts.entries =
      [(accX.DID, 2), (accZ.DID, 1), (accY.DID, 1)] ∧
    ∀ d, (aggregate didO hopsFailed.reverse).counts.find? d =
      (aggregate didO hopsFailed).counts.find? d :=
  ⟨by decide, by decide, by decide,
    (C10_counts_are_occurrence_totals didO hopsFailed).2.2 hopsFailed.reverse
      (List.reverse_perm hopsFailed)⟩

end BskyOrbit
